import Mathlib

/-!
Verification of the keystone-apps-sync reconciliation engine.

This file gives a shallow embedding of the Python sources (`manager.py`,
`managers.py`) and proves the spec claims about them.  Records are
association lists of field name to JSON-like value; the per-entity stores
(`ks_data`, `apps_data`) are association lists of key to record, with a
replace-in-place insert mirroring Python dict assignment.  Fallible Python
code (KeyError, HTTPError, raised InvalidRecord, ...) is embedded with
`Except` / explicit error components; remote HTTP traffic is passed in as
explicit response oracles.
-/

set_option autoImplicit false

namespace KeystoneSync

/-- JSON-like field values as they appear in the exported records and in the
remote API bodies.  Error bodies map a field name to a list of message
strings, so a string-list constructor suffices for the nested case. -/
inductive JVal where
  | null : JVal
  | boolean : Bool → JVal
  | num : Int → JVal
  | str : String → JVal
  | arr : List String → JVal
  deriving DecidableEq, Repr

/-- Python truthiness of a JSON-like value (`if not value` tests). -/
def jTruthy : JVal → Bool
  | .null => false
  | .boolean b => b
  | .num n => n != 0
  | .str s => s != ""
  | .arr xs => !xs.isEmpty

/-- A flat record: an ordered mapping of field name to value (a Python dict,
whose keys are unique and iterate in insertion order). -/
abbrev Record := List (String × JVal)

/-- First-match association-list lookup (Python `d[k]` / `k in d`). -/
def alookup {α β : Type} [DecidableEq α] : List (α × β) → α → Option β
  | [], _ => none
  | (k, v) :: rest, a => if k = a then some v else alookup rest a

/-- Python dict assignment `d[k] = v`: replace in place if the key exists,
otherwise append, preserving insertion order. -/
def upsert {α β : Type} [DecidableEq α] : List (α × β) → α → β → List (α × β)
  | [], a, b => [(a, b)]
  | (k, v) :: rest, a, b => if k = a then (a, b) :: rest else (k, v) :: upsert rest a b

/-- Keys of an association list, in order. -/
def keysOf {α β : Type} (l : List (α × β)) : List α := l.map Prod.fst

/-- Python `k in d` on an association list. -/
def containsKeyB {α β : Type} [DecidableEq α] (l : List (α × β)) (a : α) : Bool :=
  (alookup l a).isSome

/-- Field lookup on a record. -/
def getField (r : Record) (a : String) : Option JVal := alookup r a

/-- Field assignment on a record. -/
def setField (r : Record) (a : String) (v : JVal) : Record := upsert r a v

/-- Per-entity store: key to record, again with dict semantics. -/
abbrev Store (K : Type) := List (K × Record)

/-- Record-level invalid-data errors (class `InvalidRecord` and subclasses in
`manager.py`). -/
inductive InvalidKind where
  | missingKey : InvalidKind
  | missingKeyValue : InvalidKind
  | missingRequiredValue : InvalidKind
  deriving DecidableEq, Repr

/-- Python exceptions the embedded code can raise. -/
inductive PyErr where
  | keyError : String → PyErr
  | httpError : Nat → PyErr
  | typeError : PyErr
  | attributeError : PyErr
  | invalidRecord : InvalidKind → PyErr
  deriving DecidableEq, Repr

/-- Whether an `Except` result is a raised `InvalidRecord`. -/
def isInvalidErr {α : Type} : Except PyErr α → Bool
  | .error (.invalidRecord _) => true
  | _ => false

/-- Embedding of `should_update` (`manager.py`): iterate the desired record in
order; the first field whose current value differs decides `True`; indexing a
field absent from the current record raises `KeyError`. -/
def should_update : Record → Record → Except PyErr Bool
  | [], _ => .ok false
  | (a, dv) :: rest, current =>
    match alookup current a with
    | none => .error (.keyError a)
    | some cv => if cv ≠ dv then .ok true else should_update rest current

/-- Create set, as (key, desired record) pairs: desired entries whose key is
absent from the current store (`ks_data.keys() - apps_data.keys()`). -/
def toCreatePairs {K : Type} [DecidableEq K] (ks apps : Store K) : List (K × Record) :=
  ks.filter fun kv => !containsKeyB apps kv.1

/-- Create set keys. -/
def toCreateKeys {K : Type} [DecidableEq K] (ks apps : Store K) : List K :=
  keysOf (toCreatePairs ks apps)

/-- Delete set: current keys absent from the desired store
(`apps_data.keys() - ks_data.keys()`). -/
def toDeleteKeys {K : Type} [DecidableEq K] (ks apps : Store K) : List K :=
  (keysOf apps).filter fun k => !containsKeyB ks k

/-- Update candidates: desired entries whose key is also current
(`ks_data.keys() & apps_data.keys()`). -/
def updateCandidates {K : Type} [DecidableEq K] (ks apps : Store K) : List (K × Record) :=
  ks.filter fun kv => containsKeyB apps kv.1

/-- Update-set construction loop from `SyncManager.update`: keep the
candidates for which `should_update` answers true; a raised `KeyError`
aborts the whole construction. -/
def buildToUpdateGo {K : Type} [DecidableEq K] : List (K × Record) → Store K → Except PyErr (List K)
  | [], _ => .ok []
  | (k, d) :: rest, apps =>
    match alookup apps k with
    | none => buildToUpdateGo rest apps
    | some c =>
      match should_update d c with
      | .error e => .error e
      | .ok true =>
        match buildToUpdateGo rest apps with
        | .error e => .error e
        | .ok l => .ok (k :: l)
      | .ok false => buildToUpdateGo rest apps

/-- The update set of `SyncManager.update`. -/
def buildToUpdate {K : Type} [DecidableEq K] (ks apps : Store K) : Except PyErr (List K) :=
  buildToUpdateGo (updateCandidates ks apps) apps

/-- Desired store used by the C1 witness. -/
def ksWitness : Store JVal :=
  [(JVal.str "S1", [("student_id", JVal.str "S1"), ("name", JVal.str "Ann")])]

/-- Current store used by the C1 witness. -/
def appsWitness : Store JVal :=
  [(JVal.str "S1", [("student_id", JVal.str "S1"), ("name", JVal.str "Bea"),
      ("url", JVal.str "u1")]),
   (JVal.str "S2", [("student_id", JVal.str "S2"), ("url", JVal.str "u2")])]

/-- Log lines the embedded code emits, restricted to the per-record error and
outcome messages the claims talk about (aggregate info/progress lines are not
modelled). -/
inductive LogEntry (K : Type) where
  | loadSubErr : Nat → Nat → InvalidKind → LogEntry K
  | loadRecErr : Nat → InvalidKind → LogEntry K
  | createWarn : K → Nat → LogEntry K
  | createDetail : K → String → LogEntry K
  | createField : K → String → String → JVal → LogEntry K
  | createdOk : K → JVal → Nat → LogEntry K
  deriving DecidableEq, Repr

/-- Embedding of `AppsManager.get_key_value`: missing key field raises
`MissingKey`, falsy key value raises `MissingKeyValue`. -/
def getKeyValue (keyName : String) (r : Record) : Except PyErr JVal :=
  match getField r keyName with
  | none => .error (.invalidRecord .missingKey)
  | some v => if jTruthy v then .ok v else .error (.invalidRecord .missingKeyValue)

/-- Inner loop of `SyncManager.load_ks_data` over the sub-records one `split`
call yielded: key each sub-record and store it; an `InvalidRecord` raised by
the key extraction is caught there, logged with the record and sub-record
indices, and only that sub-record is dropped; any other exception propagates
(fatal). -/
def processSubs {K : Type} [DecidableEq K] (getKey : Record → Except PyErr K) (i : Nat) :
    List Record → Nat → Store K → Store K × List (LogEntry K) × Option PyErr
  | [], _, s => (s, [], none)
  | sub :: rest, j, s =>
    match getKey sub with
    | .ok k => processSubs getKey i rest (j + 1) (upsert s k sub)
    | .error (.invalidRecord kind) =>
      let r := processSubs getKey i rest (j + 1) s
      (r.1, .loadSubErr i j kind :: r.2.1, r.2.2)
    | .error e => (s, [], some e)

/-- Embedding of `SyncManager.load_ks_data`.  `split` returns the sub-records
the generator yielded before finishing plus an optional exception that ended
the generation; the sub-records yielded before such an exception are still
processed (Python consumes the generator lazily), an `InvalidRecord` ending
the generation is caught by the outer handler and logged with the record
index only, and any other exception is fatal. -/
def loadKsGo {K : Type} [DecidableEq K] (split : Record → List Record × Option PyErr)
    (getKey : Record → Except PyErr K) :
    List Record → Nat → Store K → Store K × List (LogEntry K) × Option PyErr
  | [], _, s => (s, [], none)
  | r :: rest, i, s =>
    let sr := split r
    let p := processSubs getKey i sr.1 0 s
    match p.2.2 with
    | some e => (p.1, p.2.1, some e)
    | none =>
      match sr.2 with
      | some (.invalidRecord kind) =>
        let q := loadKsGo split getKey rest (i + 1) p.1
        (q.1, p.2.1 ++ (.loadRecErr i kind :: q.2.1), q.2.2)
      | some e => (p.1, p.2.1, some e)
      | none =>
        let q := loadKsGo split getKey rest (i + 1) p.1
        (q.1, p.2.1 ++ q.2.1, q.2.2)

/-- Load the local export into `ks_data`, starting from the empty store. -/
def loadKsData {K : Type} [DecidableEq K] (split : Record → List Record × Option PyErr)
    (getKey : Record → Except PyErr K) (records : List Record) :
    Store K × List (LogEntry K) × Option PyErr :=
  loadKsGo split getKey records 0 []

/-- Embedding of `AppsManager.load_apps_data` over the concatenated page
results: key every remote record and store it; a raised `InvalidRecord` (or
any other exception) is not caught there and aborts the load. -/
def loadAppsGo {K : Type} [DecidableEq K] (getKey : Record → Except PyErr K) :
    List Record → Store K → Store K × Option PyErr
  | [], s => (s, none)
  | r :: rest, s =>
    match getKey r with
    | .error e => (s, some e)
    | .ok k => loadAppsGo getKey rest (upsert s k r)

/-- Load the remote collection into `apps_data`, starting from the empty
store. -/
def loadAppsData {K : Type} [DecidableEq K] (getKey : Record → Except PyErr K)
    (records : List Record) : Store K × Option PyErr :=
  loadAppsGo getKey records []

/-- The (key, record) pairs of a record list that key successfully, in
order. -/
def okKeyPairs {K : Type} (getKey : Record → Except PyErr K) (subs : List Record) :
    List (K × Record) :=
  subs.filterMap fun sub =>
    match getKey sub with
    | .ok k => some (k, sub)
    | .error _ => none

/-- The sub-record error log lines produced for one record's sub-records,
numbered from `j`. -/
def subErrLogs {K : Type} (getKey : Record → Except PyErr K) (i : Nat) :
    Nat → List Record → List (LogEntry K)
  | _, [] => []
  | j, sub :: rest =>
    match getKey sub with
    | .error (.invalidRecord kind) => .loadSubErr i j kind :: subErrLogs getKey i (j + 1) rest
    | _ => subErrLogs getKey i (j + 1) rest

/-- All error log lines produced for record `i`: its sub-record lines plus a
record-level line when the generation itself raised `InvalidRecord`. -/
def recordLogs {K : Type} (split : Record → List Record × Option PyErr)
    (getKey : Record → Except PyErr K) (i : Nat) (r : Record) : List (LogEntry K) :=
  subErrLogs getKey i 0 (split r).1 ++
    match (split r).2 with
    | some (.invalidRecord kind) => [.loadRecErr i kind]
    | _ => []

/-- The error log lines of a whole local load, numbering records from `i`. -/
def ksLogsFrom {K : Type} (split : Record → List Record × Option PyErr)
    (getKey : Record → Except PyErr K) : List Record → Nat → List (LogEntry K)
  | [], _ => []
  | r :: rest, i => recordLogs split getKey i r ++ ksLogsFrom split getKey rest (i + 1)

/-- All successfully keyed sub-records of a local load, in processing
order. -/
def ksOkPairs {K : Type} (split : Record → List Record × Option PyErr)
    (getKey : Record → Except PyErr K) (records : List Record) : List (K × Record) :=
  records.flatMap fun r => okKeyPairs getKey (split r).1

/-- Store a list of pairs into an association list left to right, with dict
replace-or-append semantics: a later pair with the same key wins. -/
def upsertFold {α β : Type} [DecidableEq α] (s : List (α × β)) (pairs : List (α × β)) :
    List (α × β) :=
  pairs.foldl (fun t kv => upsert t kv.1 kv.2) s

/-- The value of the last pair carrying a given key, if any. -/
def lastWrite {α β : Type} [DecidableEq α] : List (α × β) → α → Option β
  | [], _ => none
  | kv :: rest, a =>
    match lastWrite rest a with
    | some v => some v
    | none => if kv.1 = a then some kv.2 else none

/-- Key extraction on a sub-record either succeeds or raises
`InvalidRecord`. -/
def keyOkOrInvalid {K : Type} (getKey : Record → Except PyErr K) (sub : Record) : Prop :=
  (∃ k, getKey sub = .ok k) ∨ ∃ kind, getKey sub = .error (.invalidRecord kind)

/-- Sub-record generation either finishes or raises `InvalidRecord`. -/
def genOkOrInvalid (split : Record → List Record × Option PyErr) (r : Record) : Prop :=
  (split r).2 = none ∨ ∃ kind, (split r).2 = some (.invalidRecord kind)

/-- Python `str.strip()`: drop surrounding whitespace.  Implemented over the
character list so that concrete runs reduce in the kernel. -/
def pyStrip (s : String) : String :=
  String.mk (((s.data.dropWhile Char.isWhitespace).reverse.dropWhile Char.isWhitespace).reverse)

/-- Python `value.strip()` where the value must be a string
(`AttributeError` otherwise). -/
def stripVal : JVal → Except PyErr String
  | .str s => .ok (pyStrip s)
  | _ => .error .attributeError

/-- The `ParentManager.subvalue_map` (`managers.py`), in insertion order. -/
def parentSubvalueMap : List (String × String) :=
  [("first_name", "first"), ("last_name", "last"), ("email", "email"),
   ("phone_work", "phone_W"), ("phone_cell", "phone_cell"),
   ("middle_name", "middle"), ("full_name", "full")]

/-- Field name built from a parent marker and a sub-value attribute
(`Pa_first` and so on). -/
def pfield (pfx attr : String) : String := pfx ++ "_" ++ attr

/-- Inner loop of `ParentManager.split` over the sub-value map for one parent
marker: direct indexing (KeyError when absent), `strip()` (AttributeError on
a non-string), keep only non-empty values. -/
def buildParentOutGo (rec : Record) (pfx : String) :
    List (String × String) → Record → Except PyErr Record
  | [], out => .ok out
  | (appsAttr, ksAttr) :: rest, out =>
    match getField rec (pfield pfx ksAttr) with
    | none => .error (.keyError (pfield pfx ksAttr))
    | some v =>
      match stripVal v with
      | .error e => .error e
      | .ok sv =>
        buildParentOutGo rec pfx rest
          (if sv = "" then out else setField out appsAttr (.str sv))

/-- The enrichment `ParentManager.split` performs on a non-empty parent
sub-record: family id, address, home phone, parent marker, and the email
transform when an email was collected.  The email transform
(`email_parse_continue_blank`) is defined in a module that is not part of the
sources, so it is passed in as a function. -/
def parentEnrich (emailFn : String → JVal) (rec : Record) (pfx : String)
    (out : Record) : Except PyErr Record :=
  match getField rec "IDFAMILY" with
  | none => .error (.keyError "IDFAMILY")
  | some fam =>
    match getField rec "P_address_full" with
    | none => .error (.keyError "P_address_full")
    | some av =>
      match stripVal av with
      | .error e => .error e
      | .ok addr =>
        match getField rec "P_phone_H" with
        | none => .error (.keyError "P_phone_H")
        | some pv =>
          match stripVal pv with
          | .error e => .error e
          | .ok ph =>
            let out1 := setField (setField (setField (setField out "family_id" fam)
              "address" (.str addr)) "phone_home" (.str ph)) "parent_id" (.str pfx)
            match getField out1 "email" with
            | none => .ok out1
            | some ev =>
              match stripVal ev with
              | .error e => .error e
              | .ok es => .ok (setField out1 "email" (emailFn es))

/-- One parent marker of `ParentManager.split`: no populated sub-value means
no yield; otherwise the enriched sub-record is yielded. -/
def parentSplitOne (emailFn : String → JVal) (rec : Record) (pfx : String) :
    Except PyErr (Option Record) :=
  match buildParentOutGo rec pfx parentSubvalueMap [] with
  | .error e => .error e
  | .ok out =>
    if out.isEmpty then .ok none
    else
      match parentEnrich emailFn rec pfx out with
      | .error e => .error e
      | .ok res => .ok (some res)

/-- The synthetic minimal Pa record from the tail of `ParentManager.split`,
with the fields in the order of the dict literal. -/
def parentSynthetic (rec : Record) : Except PyErr Record :=
  match getField rec "IDFAMILY" with
  | none => .error (.keyError "IDFAMILY")
  | some fam =>
    match getField rec "P_address_full" with
    | none => .error (.keyError "P_address_full")
    | some av =>
      match stripVal av with
      | .error e => .error e
      | .ok addr =>
        match getField rec "P_phone_H" with
        | none => .error (.keyError "P_phone_H")
        | some pv =>
          match stripVal pv with
          | .error e => .error e
          | .ok ph =>
            .ok [("family_id", fam), ("parent_id", JVal.str "Pa"),
                 ("address", JVal.str addr), ("phone_home", JVal.str ph)]

/-- Embedding of `ParentManager.split` as a generator run: the records
yielded before any exception, plus the exception.  The `did_create` flag in
the source is initialised and tested but never assigned, so the synthetic Pa
record is appended after every run that reaches the tail. -/
def parentSplit (emailFn : String → JVal) (rec : Record) : List Record × Option PyErr :=
  match parentSplitOne emailFn rec "Pa" with
  | .error e => ([], some e)
  | .ok oa =>
    match parentSplitOne emailFn rec "Pb" with
    | .error e => (oa.toList, some e)
    | .ok ob =>
      match parentSynthetic rec with
      | .error e => (oa.toList ++ ob.toList, some e)
      | .ok syn => (oa.toList ++ ob.toList ++ [syn], none)

/-- Embedding of `ParentManager.get_key_value`: the
`(family_id, parent_id)` pair, by direct indexing (KeyError when absent). -/
def parentGetKey (rec : Record) : Except PyErr (JVal × JVal) :=
  match getField rec "family_id" with
  | none => .error (.keyError "family_id")
  | some f =>
    match getField rec "parent_id" with
    | none => .error (.keyError "parent_id")
    | some p => .ok (f, p)

/-- Whether one sub-value field of a family record is blank for a given
parent marker (absent, non-string, or whitespace-only). -/
def blankAt (rec : Record) (pfx : String) (p : String × String) : Bool :=
  match getField rec (pfield pfx p.2) with
  | some (JVal.str s) => pyStrip s == ""
  | _ => true

/-- Whether a parent marker is populated: some sub-value field is
non-blank. -/
def popB (rec : Record) (pfx : String) : Bool :=
  !(parentSubvalueMap.all (blankAt rec pfx))

/-- Family record with only the Pa side populated, used against C5. -/
def c5FamilyRec : Record :=
  [("IDFAMILY", JVal.str "F1"),
   ("P_address_full", JVal.str ""), ("P_phone_H", JVal.str ""),
   ("Pa_first", JVal.str "John"), ("Pa_last", JVal.str ""),
   ("Pa_email", JVal.str ""), ("Pa_phone_W", JVal.str ""),
   ("Pa_phone_cell", JVal.str ""), ("Pa_middle", JVal.str ""),
   ("Pa_full", JVal.str ""),
   ("Pb_first", JVal.str ""), ("Pb_last", JVal.str ""),
   ("Pb_email", JVal.str ""), ("Pb_phone_W", JVal.str ""),
   ("Pb_phone_cell", JVal.str ""), ("Pb_middle", JVal.str ""),
   ("Pb_full", JVal.str "")]

/-- Stand-in email transform for concrete runs (the claims under test do not
depend on its value). -/
def c5EmailFn : String → JVal := fun s => JVal.str s

/-- Family record with both parent sides populated, for the C5 witness. -/
def c5FamilyRecBoth : Record :=
  [("IDFAMILY", JVal.str "F2"),
   ("P_address_full", JVal.str "addr"), ("P_phone_H", JVal.str "555"),
   ("Pa_first", JVal.str "John"), ("Pa_last", JVal.str "Doe"),
   ("Pa_email", JVal.str ""), ("Pa_phone_W", JVal.str ""),
   ("Pa_phone_cell", JVal.str ""), ("Pa_middle", JVal.str ""),
   ("Pa_full", JVal.str ""),
   ("Pb_first", JVal.str "Jane"), ("Pb_last", JVal.str "Doe"),
   ("Pb_email", JVal.str ""), ("Pb_phone_W", JVal.str ""),
   ("Pb_phone_cell", JVal.str ""), ("Pb_middle", JVal.str ""),
   ("Pb_full", JVal.str "")]

/-- Remote record for the C10 witness, first occurrence of key S1. -/
def c10Rec1 : Record := [("student_id", JVal.str "S1"), ("name", JVal.str "Ann")]

/-- Remote record for the C10 witness, second occurrence of key S1. -/
def c10Rec2 : Record := [("student_id", JVal.str "S1"), ("name", JVal.str "Bea")]

/-- An HTTP response: status code and parsed JSON body. -/
structure HResp where
  status : Nat
  body : Record
  deriving DecidableEq, Repr

/-- Python iteration over a 4xx body value: a list yields its messages, a
string yields its characters one by one, anything else raises
`TypeError`. -/
def iterMsgs : JVal → Except PyErr (List String)
  | .arr xs => .ok xs
  | .str s => .ok (s.data.map fun c => String.mk [c])
  | _ => .error .typeError

/-- The error log lines for one attribute of a 4xx body outside the
string-valued `detail` special case: one line per message, each looking up
the offending value in the desired record (`desired_record[attr]`, a
`KeyError` when the loop body runs and the field is absent). -/
def attrErrorLogs {K : Type} (key : K) (desired : Record) (attr : String) (errors : JVal) :
    List (LogEntry K) × Option PyErr :=
  match iterMsgs errors with
  | .error e => ([], some e)
  | .ok msgs =>
    if msgs.isEmpty then ([], none)
    else
      match getField desired attr with
      | none => ([], some (.keyError attr))
      | some v => (msgs.map fun m => LogEntry.createField key attr m v, none)

/-- The error log lines for one attribute of a 4xx body
(`if attr == 'detail' and isinstance(errors, str)`). -/
def logsForAttr {K : Type} (key : K) (desired : Record) (attr : String) (errors : JVal) :
    List (LogEntry K) × Option PyErr :=
  match errors with
  | .str m =>
    if attr = "detail" then ([LogEntry.createDetail key m], none)
    else attrErrorLogs key desired attr (.str m)
  | _ => attrErrorLogs key desired attr errors

/-- The 4xx body walk of `SyncManager.create`: log the reported errors
attribute by attribute; an exception raised while logging one attribute
keeps the earlier lines and propagates. -/
def processErrBody {K : Type} (key : K) (desired : Record) :
    List (String × JVal) → List (LogEntry K) × Option PyErr
  | [] => ([], none)
  | (attr, errors) :: rest =>
    let r := logsForAttr key desired attr errors
    match r.2 with
    | some e => (r.1, some e)
    | none =>
      let q := processErrBody key desired rest
      (r.1 ++ q.1, q.2)

/-- One iteration of the `SyncManager.create` loop: on a 4xx response log the
warning and the reported errors and skip the record; `raise_for_status`
makes the remaining 4xx/5xx range fatal; any other status (all of 0..399) is
treated as success, the `url` of the response body is logged
(`KeyError` when absent) and the body is the record to store. -/
def createOne {K : Type} (post : K → Record → HResp) (k : K) (d : Record) :
    Option Record × List (LogEntry K) × Option PyErr :=
  let resp := post k d
  if 400 ≤ resp.status ∧ resp.status < 500 then
    let r := processErrBody k d resp.body
    (none, LogEntry.createWarn k resp.status :: r.1, r.2)
  else if 400 ≤ resp.status ∧ resp.status < 600 then
    (none, [], some (.httpError resp.status))
  else
    match getField resp.body "url" with
    | none => (none, [], some (.keyError "url"))
    | some u => (some resp.body, [LogEntry.createdOk k u resp.status], none)

/-- The `SyncManager.create` loop over the create set: successful creations
are inserted into the in-memory current store as the loop goes; a raised
exception ends the loop with the insertions made so far. -/
def createGo {K : Type} [DecidableEq K] (post : K → Record → HResp) :
    List (K × Record) → Store K → Store K × List (LogEntry K) × Option PyErr
  | [], s => (s, [], none)
  | (k, d) :: rest, s =>
    let r := createOne post k d
    match r.2.2 with
    | some e => (s, r.2.1, some e)
    | none =>
      match r.1 with
      | none =>
        let q := createGo post rest s
        (q.1, r.2.1 ++ q.2.1, q.2.2)
      | some data =>
        let q := createGo post rest (upsert s k data)
        (q.1, r.2.1 ++ q.2.1, q.2.2)

/-- The create phase of `SyncManager`: run the loop over the create set
against the current store. -/
def createPhase {K : Type} [DecidableEq K] (post : K → Record → HResp) (ks apps : Store K) :
    Store K × List (LogEntry K) × Option PyErr :=
  createGo post (toCreatePairs ks apps) apps

/-- Whether logging one attribute of a 4xx body raises nothing: the
string-valued `detail` case, an iterable value that is empty, or one whose
attribute is present in the desired record. -/
def errAttrOk (desired : Record) (attr : String) (errors : JVal) : Bool :=
  match errors with
  | .str m => (attr == "detail") || m.data.isEmpty || (getField desired attr).isSome
  | .arr xs => xs.isEmpty || (getField desired attr).isSome
  | _ => false

/-- Whether walking a whole 4xx body raises nothing. -/
def errBodyOk (desired : Record) (body : Record) : Bool :=
  body.all fun p => errAttrOk desired p.1 p.2

/-- Whether one create-set response is handled without a fatal error: a 4xx
whose body logs cleanly, or a sub-400 status whose body carries a `url`. -/
def respHandled (desired : Record) (r : HResp) : Bool :=
  if 400 ≤ r.status ∧ r.status < 500 then errBodyOk desired r.body
  else if r.status < 400 then (getField r.body "url").isSome
  else false

/-- The store after a create loop, written as a fold: each successfully
created record is stored under its key. -/
def createStoreFold {K : Type} [DecidableEq K] (post : K → Record → HResp)
    (l : List (K × Record)) (s : Store K) : Store K :=
  l.foldl
    (fun t kv =>
      match (createOne post kv.1 kv.2).1 with
      | some data => upsert t kv.1 data
      | none => t) s

/-- The log lines of a create loop, in order. -/
def createLogsFlat {K : Type} (post : K → Record → HResp) (l : List (K × Record)) :
    List (LogEntry K) :=
  l.flatMap fun kv => (createOne post kv.1 kv.2).2.1

/-- The (key, stored record) writes of a create loop. -/
def createWrites {K : Type} (post : K → Record → HResp) (l : List (K × Record)) :
    List (K × Record) :=
  l.filterMap fun kv => ((createOne post kv.1 kv.2).1).map fun data => (kv.1, data)

/-- Post oracle answering 304 Not Modified, used against C3. -/
def c3Post : JVal → Record → HResp := fun _ _ => ⟨304, [("url", JVal.str "u1")]⟩

/-- Desired store with one record to create, used against C3. -/
def c3Ks : Store JVal := [(JVal.str "S1", [("student_id", JVal.str "S1")])]

/-- Post oracle for the C3 witness: S1 is rejected with a field error, S2 is
created. -/
def c3PostMix : JVal → Record → HResp := fun k _ =>
  if k = JVal.str "S1" then ⟨400, [("email", JVal.arr ["invalid"])]⟩
  else ⟨201, [("student_id", JVal.str "S2"), ("url", JVal.str "u2")]⟩

/-- Desired store for the C3 witness. -/
def c3KsMix : Store JVal :=
  [(JVal.str "S1", [("student_id", JVal.str "S1"), ("email", JVal.str "bad")]),
   (JVal.str "S2", [("student_id", JVal.str "S2")])]

/-- The value `SyncManager.translate` assigns for one field-map pair:
whitespace trim for string values, then the optional registered per-field
transform. -/
def translatedValue (ftrans : String → Option (JVal → JVal)) (appsAttr : String)
    (v0 : JVal) : JVal :=
  let v1 := match v0 with
    | .str s => JVal.str (pyStrip s)
    | _ => v0
  match ftrans appsAttr with
  | some f => f v1
  | none => v1

/-- Inner loop of `SyncManager.translate` over the field map: direct
indexing of the source field (`KeyError` when absent), then the value
transform and the assignment. -/
def translateFieldsGo (ftrans : String → Option (JVal → JVal)) (rec : Record) :
    List (String × String) → Record → Except PyErr Record
  | [], out => .ok out
  | (appsAttr, ksAttr) :: rest, out =>
    match getField rec ksAttr with
    | none => .error (.keyError ksAttr)
    | some v0 =>
      translateFieldsGo ftrans rec rest
        (setField out appsAttr (translatedValue ftrans appsAttr v0))

/-- The field-map stage of `SyncManager.translate`, starting from an empty
output record. -/
def translateFields (ftrans : String → Option (JVal → JVal))
    (fieldMap : List (String × String)) (rec : Record) : Except PyErr Record :=
  translateFieldsGo ftrans rec fieldMap []

/-- Truthiness of an optional field value: absent counts as falsy. -/
def jTruthyO : Option JVal → Bool
  | none => false
  | some v => jTruthy v

/-- The required-fields stage of `SyncManager.translate`: an absent or falsy
required field raises `MissingRequiredValue`. -/
def checkRequired : List String → Record → Except PyErr Record
  | [], out => .ok out
  | k :: rest, out =>
    match getField out k with
    | none => .error (.invalidRecord .missingRequiredValue)
    | some v =>
      if jTruthy v then checkRequired rest out
      else .error (.invalidRecord .missingRequiredValue)

/-- Embedding of `SyncManager.translate`: the field-map stage followed by the
required-fields check. -/
def translate (ftrans : String → Option (JVal → JVal)) (fieldMap : List (String × String))
    (required : List String) (rec : Record) : Except PyErr Record :=
  match translateFields ftrans fieldMap rec with
  | .error e => .error e
  | .ok out => checkRequired required out

/-- Field map with one mapped source field, used against C6. -/
def c6FieldMap : List (String × String) := [("a", "A")]

/-- Embedding of `GetOrCreateManager.get_url_for_key` after the remote load:
null for a falsy key before any lookup, the cached record's url when the key
is present, otherwise a creation request whose body holds only the key
field; the created record is stored before its url is read.  The third
component lists the request bodies posted. -/
def gocGetUrlForKey (post : Record → HResp) (keyName : String) (key : JVal)
    (store : Store JVal) : Store JVal × Except PyErr (Option JVal) × List Record :=
  if jTruthy key = false then (store, .ok none, [])
  else
    match alookup store key with
    | some rec =>
      (store,
        (match getField rec "url" with
         | none => .error (.keyError "url")
         | some u => .ok (some u)), [])
    | none =>
      let reqBody : Record := [(keyName, key)]
      let resp := post reqBody
      if 400 ≤ resp.status ∧ resp.status < 600 then
        (store, .error (.httpError resp.status), [reqBody])
      else
        match getField resp.body "url" with
        | none => (upsert store key resp.body, .error (.keyError "url"), [reqBody])
        | some u => (upsert store key resp.body, .ok (some u), [reqBody])

/-- Post oracle for the C8 witness. -/
def c8Post : Record → HResp :=
  fun _ => ⟨201, [("year", JVal.str "2024"), ("url", JVal.str "u9")]⟩

/-- Outcome of one discovery-document GET: a connection error or a
response. -/
inductive Disc where
  | connError : Disc
  | resp : Nat → Record → Disc

/-- Observable events of the discovery fetch loop: an attempt, the
connection-error log line, and a `time.sleep` with its duration. -/
inductive FetchEvent where
  | attempt : FetchEvent
  | connLogged : FetchEvent
  | slept : Nat → FetchEvent
  deriving DecidableEq, Repr

/-- Embedding of `AppsManager.get_url_map` (`for i in range(10)`): each
attempt GETs the root; a `ConnectionError` is logged, sleeps 5 seconds and
retries; `raise_for_status` makes a 400..599 response fatal immediately;
any other response is returned.  Falling off the loop returns Python
`None`. -/
def getUrlMapGo (oracle : Nat → Disc) :
    Nat → Nat → Except PyErr (Option Record) × List FetchEvent
  | 0, _ => (.ok none, [])
  | n + 1, i =>
    match oracle i with
    | .connError =>
      let r := getUrlMapGo oracle n (i + 1)
      (r.1, FetchEvent.attempt :: FetchEvent.connLogged :: FetchEvent.slept 5 :: r.2)
    | .resp status body =>
      if 400 ≤ status ∧ status < 600 then
        (.error (.httpError status), [FetchEvent.attempt])
      else (.ok (some body), [FetchEvent.attempt])

/-- The discovery fetch: ten attempts starting at the first. -/
def getUrlMap (oracle : Nat → Disc) : Except PyErr (Option Record) × List FetchEvent :=
  getUrlMapGo oracle 10 0

/-- The `url` property: subscript the discovery document with the entity's
url key.  Subscripting the `None` left by an exhausted retry loop raises
`TypeError`. -/
def urlFromMap (oracle : Nat → Disc) (urlKey : String) : Except PyErr JVal :=
  match (getUrlMap oracle).1 with
  | .error e => .error e
  | .ok none => .error .typeError
  | .ok (some m) =>
    match getField m urlKey with
    | none => .error (.keyError urlKey)
    | some u => .ok u

/-- The events of a run of consecutive connection failures. -/
def connEvents : Nat → List FetchEvent
  | 0 => []
  | n + 1 => FetchEvent.attempt :: FetchEvent.connLogged :: FetchEvent.slept 5 :: connEvents n

/-- Oracle that always fails to connect, used against C9. -/
def c9AllConn : Nat → Disc := fun _ => Disc.connError

/-- Oracle with two connection failures and then a successful response, for
the C9 witness. -/
def c9Oracle : Nat → Disc := fun i =>
  if i < 2 then Disc.connError else Disc.resp 200 [("students", JVal.str "su")]

/-- The inputs a `SyncManager` instance works against: the post oracle, the
remote records (concatenated page results), the local export records, and
the per-entity hooks. -/
structure SyncEnv (K : Type) where
  post : K → Record → HResp
  appsRecords : List Record
  ksRecords : List Record
  getKey : Record → Except PyErr K
  split : Record → List Record × Option PyErr
  keyFalsy : K → Bool

/-- The mutable state of a `SyncManager` instance within one pass: the two
stores, the log, the run-once flags, and a raised exception that ended the
pass. -/
structure SyncState (K : Type) where
  apps : Store K
  ks : Store K
  logs : List (LogEntry K)
  appsLoaded : Bool
  ksLoaded : Bool
  createRan : Bool
  fatal : Option PyErr

/-- A freshly constructed manager. -/
def initState {K : Type} : SyncState K := ⟨[], [], [], false, false, false, none⟩

/-- Modelled from the spec: the `run_once` decorator (module `single`, not
under the sources) runs the wrapped phase at most once per manager instance
— embedded as an explicit flag guarding `load_apps_data`. -/
def smLoadApps {K : Type} [DecidableEq K] (env : SyncEnv K) (st : SyncState K) : SyncState K :=
  if st.fatal.isSome || st.appsLoaded then st
  else
    let r := loadAppsGo env.getKey env.appsRecords st.apps
    { st with apps := r.1, appsLoaded := true, fatal := r.2 }

/-- Modelled from the spec: `run_once` guard around `load_ks_data`, as for
`smLoadApps`. -/
def smLoadKs {K : Type} [DecidableEq K] (env : SyncEnv K) (st : SyncState K) : SyncState K :=
  if st.fatal.isSome || st.ksLoaded then st
  else
    let r := loadKsGo env.split env.getKey env.ksRecords 0 st.ks
    { st with ks := r.1, logs := st.logs ++ r.2.1, ksLoaded := true, fatal := r.2.2 }

/-- Modelled from the spec: `run_once` guard around `SyncManager.create`,
whose body loads both sides (each itself memoized) and then runs the create
loop. -/
def smCreate {K : Type} [DecidableEq K] (env : SyncEnv K) (st : SyncState K) : SyncState K :=
  if st.fatal.isSome || st.createRan then st
  else
    let st2 := smLoadKs env (smLoadApps env st)
    if st2.fatal.isSome then { st2 with createRan := true }
    else
      let r := createPhase env.post st2.ks st2.apps
      { st2 with apps := r.1, logs := st2.logs ++ r.2.1, createRan := true, fatal := r.2.2 }

/-- Embedding of `SyncManager.get_url_for_key`: force the create phase, then
the `AppsManager` lookup — null for a falsy key, `load_apps_data` (a no-op
once loaded), null for an unknown key, otherwise the record's url. -/
def smGetUrlForKey {K : Type} [DecidableEq K] (env : SyncEnv K) (key : K) (st : SyncState K) :
    SyncState K × Except PyErr (Option JVal) :=
  let st1 := smCreate env st
  match st1.fatal with
  | some e => (st1, .error e)
  | none =>
    if env.keyFalsy key then (st1, .ok none)
    else
      let st2 := smLoadApps env st1
      match st2.fatal with
      | some e => (st2, .error e)
      | none =>
        match alookup st2.apps key with
        | none => (st2, .ok none)
        | some rec =>
          match getField rec "url" with
          | none => (st2, .error (.keyError "url"))
          | some u => (st2, .ok (some u))

/-- Concrete one-student environment for the C4 witness. -/
def c4Env : SyncEnv JVal where
  post := fun _ _ => ⟨201, [("student_id", JVal.str "S1"), ("url", JVal.str "u4")]⟩
  appsRecords := []
  ksRecords := [[("student_id", JVal.str "S1")]]
  getKey := getKeyValue "student_id"
  split := fun r => ([r], none)
  keyFalsy := fun v => !jTruthy v

@[simp]
theorem alookup_nil {α β : Type} [DecidableEq α] (a : α) :
    alookup ([] : List (α × β)) a = none := rfl

@[simp]
theorem alookup_cons {α β : Type} [DecidableEq α] (k : α) (v : β) (rest : List (α × β)) (a : α) :
    alookup ((k, v) :: rest) a = if k = a then some v else alookup rest a := rfl

theorem alookup_upsert {α β : Type} [DecidableEq α] (l : List (α × β)) (a x : α) (b : β) :
    alookup (upsert l a b) x = if a = x then some b else alookup l x := by
  induction l with
  | nil => simp [upsert]
  | cons kv rest ih =>
    obtain ⟨k, v⟩ := kv
    by_cases hka : k = a
    · subst hka
      by_cases hax : k = x <;> simp [upsert, hax]
    · simp only [upsert, if_neg hka, alookup_cons, ih]
      by_cases hkx : k = x
      · subst hkx
        have hax : a ≠ k := fun h => hka h.symm
        simp [hax]
      · simp [hkx]

theorem mem_keysOf_iff_alookup {α β : Type} [DecidableEq α] (l : List (α × β)) (a : α) :
    a ∈ keysOf l ↔ (alookup l a).isSome := by
  induction l with
  | nil => simp [keysOf]
  | cons kv rest ih =>
    obtain ⟨k, v⟩ := kv
    by_cases hka : k = a
    · subst hka
      simp [keysOf]
    · simp [keysOf, hka, Ne.symm hka, ih] at *
      tauto

theorem containsKeyB_iff_mem {α β : Type} [DecidableEq α] (l : List (α × β)) (a : α) :
    containsKeyB l a = true ↔ a ∈ keysOf l := by
  rw [containsKeyB, mem_keysOf_iff_alookup]

theorem should_update_characterization (desired current : Record)
    (h : ∀ p ∈ desired, (alookup current p.1).isSome) :
    (should_update desired current = .ok true ↔ ∃ p ∈ desired, alookup current p.1 ≠ some p.2) ∧
    (should_update desired current = .ok false ↔ ∀ p ∈ desired, alookup current p.1 = some p.2) := by
  induction desired with
  | nil => simp [should_update]
  | cons pd rest ih =>
    obtain ⟨a, dv⟩ := pd
    have ha : (alookup current a).isSome := h (a, dv) (List.mem_cons_self _ _)
    obtain ⟨cv, hcv⟩ : ∃ cv, alookup current a = some cv := by
      cases hl : alookup current a with
      | none => rw [hl] at ha; simp at ha
      | some cv => exact ⟨cv, rfl⟩
    have ih' := ih fun p hp => h p (List.mem_cons_of_mem _ hp)
    by_cases hne : cv = dv
    · subst hne
      constructor
      · rw [show should_update ((a, cv) :: rest) current = should_update rest current by
          simp [should_update, hcv]]
        rw [ih'.1]
        constructor
        · rintro ⟨p, hp, hpne⟩
          exact ⟨p, List.mem_cons_of_mem _ hp, hpne⟩
        · rintro ⟨p, hp, hpne⟩
          rcases List.mem_cons.mp hp with heq | hmem
          · subst heq; exact absurd hcv hpne
          · exact ⟨p, hmem, hpne⟩
      · rw [show should_update ((a, cv) :: rest) current = should_update rest current by
          simp [should_update, hcv]]
        rw [ih'.2]
        constructor
        · intro hall p hp
          rcases List.mem_cons.mp hp with heq | hmem
          · subst heq; exact hcv
          · exact hall p hmem
        · intro hall p hp
          exact hall p (List.mem_cons_of_mem _ hp)
    · have hrun : should_update ((a, dv) :: rest) current = .ok true := by
        simp [should_update, hcv, hne]
      constructor
      · rw [hrun]
        simp only [true_iff]
        exact ⟨(a, dv), List.mem_cons_self _ _, by rw [hcv]; simp [hne]⟩
      · rw [hrun]
        constructor
        · intro hfalse; cases hfalse
        · intro hall
          have := hall (a, dv) (List.mem_cons_self _ _)
          rw [hcv] at this
          exact absurd (Option.some_injective _ this) hne

theorem buildToUpdateGo_subset {K : Type} [DecidableEq K]
    (cand : List (K × Record)) (apps : Store K) (l : List K)
    (h : buildToUpdateGo cand apps = .ok l) : ∀ k ∈ l, ∃ d, (k, d) ∈ cand := by
  induction cand generalizing l with
  | nil =>
    simp only [buildToUpdateGo, Except.ok.injEq] at h
    subst h; intro k hk; cases hk
  | cons kv rest ih =>
    obtain ⟨k0, d0⟩ := kv
    intro k hk
    cases hca : alookup apps k0 with
    | none =>
      rw [show buildToUpdateGo ((k0, d0) :: rest) apps = buildToUpdateGo rest apps by
        simp [buildToUpdateGo, hca]] at h
      obtain ⟨d, hd⟩ := ih l h k hk
      exact ⟨d, List.mem_cons_of_mem _ hd⟩
    | some c =>
      cases hsu : should_update d0 c with
      | error e => simp [buildToUpdateGo, hca, hsu] at h
      | ok b =>
        cases b with
        | false =>
          rw [show buildToUpdateGo ((k0, d0) :: rest) apps = buildToUpdateGo rest apps by
            simp [buildToUpdateGo, hca, hsu]] at h
          obtain ⟨d, hd⟩ := ih l h k hk
          exact ⟨d, List.mem_cons_of_mem _ hd⟩
        | true =>
          cases hrest : buildToUpdateGo rest apps with
          | error e => simp [buildToUpdateGo, hca, hsu, hrest] at h
          | ok l0 =>
            have hl : l = k0 :: l0 := by
              simp [buildToUpdateGo, hca, hsu, hrest] at h
              exact h.symm
            subst hl
            rcases List.mem_cons.mp hk with heq | hmem
            · subst heq; exact ⟨d0, List.mem_cons_self _ _⟩
            · obtain ⟨d, hd⟩ := ih l0 hrest k hmem
              exact ⟨d, List.mem_cons_of_mem _ hd⟩

/-- C1: for every pair of loaded stores, the create set (desired minus
current) is disjoint from the current keys, the delete set (current minus
desired) is disjoint from the desired keys, and every key the update loop
selects lies in both the desired and the current key sets. -/
theorem C1_diff_sets_partition {K : Type} [DecidableEq K] (ks apps : Store K) :
    (∀ k ∈ toCreateKeys ks apps, k ∉ keysOf apps) ∧
    (∀ k ∈ toDeleteKeys ks apps, k ∉ keysOf ks) ∧
    (∀ l, buildToUpdate ks apps = .ok l → ∀ k ∈ l, k ∈ keysOf ks ∧ k ∈ keysOf apps) := by
  refine ⟨?_, ?_, ?_⟩
  · intro k hk
    simp only [toCreateKeys, toCreatePairs, keysOf, List.mem_map, List.mem_filter] at hk
    obtain ⟨kv, ⟨_, hcb⟩, hfst⟩ := hk
    subst hfst
    intro hmem
    rw [← containsKeyB_iff_mem] at hmem
    simp [hmem] at hcb
  · intro k hk
    simp only [toDeleteKeys, List.mem_filter] at hk
    intro hmem
    rw [← containsKeyB_iff_mem] at hmem
    simp [hmem] at hk
  · intro l hl k hk
    obtain ⟨d, hd⟩ := buildToUpdateGo_subset _ _ _ hl k hk
    simp only [updateCandidates, List.mem_filter] at hd
    constructor
    · exact List.mem_map.mpr ⟨(k, d), hd.1, rfl⟩
    · exact (containsKeyB_iff_mem apps k).mp hd.2

/-- Witness for C1: on a concrete desired/current pair the update loop selects
key S1, which the theorem places in both key sets. -/
theorem C1_diff_sets_partition_witness :
    JVal.str "S1" ∈ keysOf ksWitness ∧ JVal.str "S1" ∈ keysOf appsWitness :=
  (C1_diff_sets_partition ksWitness appsWitness).2.2 [JVal.str "S1"] rfl
    (JVal.str "S1") (List.mem_singleton.mpr rfl)

/-- C2: with every desired field present in the current record,
`should_update` answers true exactly when some desired field differs from the
current value, and false exactly when the desired fields are a subset of
identically-valued current fields; fields absent from the desired record are
never compared. -/
theorem C2_should_update_iff (desired current : Record)
    (h : ∀ p ∈ desired, (alookup current p.1).isSome) :
    (should_update desired current = .ok true ↔ ∃ p ∈ desired, alookup current p.1 ≠ some p.2) ∧
    (should_update desired current = .ok false ↔ ∀ p ∈ desired, alookup current p.1 = some p.2) :=
  should_update_characterization desired current h

/-- Witness for C2 at the spec example: desired is a subset of
identically-valued current fields, so no update is wanted. -/
theorem C2_should_update_iff_witness :
    should_update [("a", JVal.str "x")] [("a", JVal.str "x"), ("b", JVal.str "y")] = .ok false :=
  ((C2_should_update_iff [("a", JVal.str "x")] [("a", JVal.str "x"), ("b", JVal.str "y")]
    (by decide)).2).mpr (by decide)

theorem upsertFold_append {α β : Type} [DecidableEq α] (s : List (α × β))
    (l1 l2 : List (α × β)) :
    upsertFold s (l1 ++ l2) = upsertFold (upsertFold s l1) l2 := by
  simp [upsertFold, List.foldl_append]

theorem alookup_upsertFold {α β : Type} [DecidableEq α] (pairs : List (α × β))
    (s : List (α × β)) (a : α) :
    alookup (upsertFold s pairs) a = (lastWrite pairs a).elim (alookup s a) some := by
  induction pairs generalizing s with
  | nil => simp [upsertFold, lastWrite]
  | cons kv rest ih =>
    rw [show upsertFold s (kv :: rest) = upsertFold (upsert s kv.1 kv.2) rest from rfl, ih]
    cases hlw : lastWrite rest a with
    | some v => simp [lastWrite, hlw]
    | none =>
      by_cases h : kv.1 = a
      · simp [lastWrite, hlw, h, alookup_upsert]
      · simp [lastWrite, hlw, h, alookup_upsert]

theorem lastWrite_isSome_iff {α β : Type} [DecidableEq α] (pairs : List (α × β)) (a : α) :
    (lastWrite pairs a).isSome ↔ a ∈ keysOf pairs := by
  induction pairs with
  | nil => simp [lastWrite, keysOf]
  | cons kv rest ih =>
    have hk : keysOf (kv :: rest) = kv.1 :: keysOf rest := rfl
    cases hlw : lastWrite rest a with
    | some v =>
      have hmem : a ∈ keysOf rest := ih.mp (by simp [hlw])
      constructor
      · intro _; rw [hk]; exact List.mem_cons_of_mem _ hmem
      · intro _; simp [lastWrite, hlw]
    | none =>
      have hrest : a ∉ keysOf rest := fun hm => by
        have := ih.mpr hm
        simp [hlw] at this
      by_cases h : kv.1 = a
      · constructor
        · intro _; rw [hk, h]; exact List.mem_cons_self _ _
        · intro _; simp [lastWrite, hlw, h]
      · constructor
        · intro hs; exfalso; simp [lastWrite, hlw, h] at hs
        · intro hm
          exfalso
          rw [hk] at hm
          rcases List.mem_cons.mp hm with he | hm2
          · exact h he.symm
          · exact hrest hm2

theorem processSubs_spec {K : Type} [DecidableEq K] (getKey : Record → Except PyErr K)
    (i : Nat) (subs : List Record) :
    ∀ j s, (∀ sub ∈ subs, keyOkOrInvalid getKey sub) →
    processSubs getKey i subs j s =
      (upsertFold s (okKeyPairs getKey subs), subErrLogs getKey i j subs, none) := by
  induction subs with
  | nil => intro j s _; simp [processSubs, okKeyPairs, upsertFold, subErrLogs]
  | cons sub rest ih =>
    intro j s h
    rcases h sub (List.mem_cons_self _ _) with ⟨k, hk⟩ | ⟨kind, hk⟩
    · have h1 : processSubs getKey i (sub :: rest) j s =
          processSubs getKey i rest (j + 1) (upsert s k sub) := by
        simp [processSubs, hk]
      have h2 : okKeyPairs getKey (sub :: rest) = (k, sub) :: okKeyPairs getKey rest := by
        simp [okKeyPairs, hk]
      have h3 : subErrLogs getKey i j (sub :: rest) = subErrLogs getKey i (j + 1) rest := by
        simp [subErrLogs, hk]
      rw [h1, h2, h3, ih (j + 1) _ (fun x hx => h x (List.mem_cons_of_mem _ hx))]
      rfl
    · have h1 : processSubs getKey i (sub :: rest) j s =
          ((processSubs getKey i rest (j + 1) s).1,
            .loadSubErr i j kind :: (processSubs getKey i rest (j + 1) s).2.1,
            (processSubs getKey i rest (j + 1) s).2.2) := by
        simp [processSubs, hk]
      have h2 : okKeyPairs getKey (sub :: rest) = okKeyPairs getKey rest := by
        simp [okKeyPairs, hk]
      have h3 : subErrLogs getKey i j (sub :: rest) =
          .loadSubErr i j kind :: subErrLogs getKey i (j + 1) rest := by
        simp [subErrLogs, hk]
      rw [h1, h2, h3, ih (j + 1) _ (fun x hx => h x (List.mem_cons_of_mem _ hx))]

theorem loadKsGo_spec {K : Type} [DecidableEq K] (split : Record → List Record × Option PyErr)
    (getKey : Record → Except PyErr K) (records : List Record) :
    ∀ i s, (∀ r ∈ records, genOkOrInvalid split r ∧ ∀ sub ∈ (split r).1, keyOkOrInvalid getKey sub) →
    loadKsGo split getKey records i s =
      (upsertFold s (ksOkPairs split getKey records), ksLogsFrom split getKey records i, none) := by
  induction records with
  | nil => intro i s _; simp [loadKsGo, ksOkPairs, upsertFold, ksLogsFrom]
  | cons r rest ih =>
    intro i s h
    obtain ⟨hgen, hsubs⟩ := h r (List.mem_cons_self _ _)
    have hrest := fun x hx => h x (List.mem_cons_of_mem _ hx)
    have hps := processSubs_spec getKey i (split r).1 0 s hsubs
    have hop : ksOkPairs split getKey (r :: rest) =
        okKeyPairs getKey (split r).1 ++ ksOkPairs split getKey rest := by
      simp [ksOkPairs]
    rcases hgen with hnone | ⟨kind, hsome⟩
    · have hstep : loadKsGo split getKey (r :: rest) i s =
          ((loadKsGo split getKey rest (i + 1) (upsertFold s (okKeyPairs getKey (split r).1))).1,
            subErrLogs getKey i 0 (split r).1 ++
              (loadKsGo split getKey rest (i + 1)
                (upsertFold s (okKeyPairs getKey (split r).1))).2.1,
            (loadKsGo split getKey rest (i + 1)
              (upsertFold s (okKeyPairs getKey (split r).1))).2.2) := by
        simp [loadKsGo, hps, hnone]
      rw [hstep, ih (i + 1) _ hrest, hop, upsertFold_append]
      simp [ksLogsFrom, recordLogs, hnone]
    · have hstep : loadKsGo split getKey (r :: rest) i s =
          ((loadKsGo split getKey rest (i + 1) (upsertFold s (okKeyPairs getKey (split r).1))).1,
            subErrLogs getKey i 0 (split r).1 ++
              (.loadRecErr i kind ::
                (loadKsGo split getKey rest (i + 1)
                  (upsertFold s (okKeyPairs getKey (split r).1))).2.1),
            (loadKsGo split getKey rest (i + 1)
              (upsertFold s (okKeyPairs getKey (split r).1))).2.2) := by
        simp [loadKsGo, hps, hsome]
      rw [hstep, ih (i + 1) _ hrest, hop, upsertFold_append]
      simp [ksLogsFrom, recordLogs, hsome]

theorem loadAppsGo_spec {K : Type} [DecidableEq K] (getKey : Record → Except PyErr K)
    (records : List Record) :
    ∀ s, (∀ r ∈ records, ∃ k, getKey r = .ok k) →
    loadAppsGo getKey records s = (upsertFold s (okKeyPairs getKey records), none) := by
  induction records with
  | nil => intro s _; simp [loadAppsGo, okKeyPairs, upsertFold]
  | cons r rest ih =>
    intro s h
    obtain ⟨k, hk⟩ := h r (List.mem_cons_self _ _)
    have h1 : loadAppsGo getKey (r :: rest) s = loadAppsGo getKey rest (upsert s k r) := by
      simp [loadAppsGo, hk]
    have h2 : okKeyPairs getKey (r :: rest) = (k, r) :: okKeyPairs getKey rest := by
      simp [okKeyPairs, hk]
    rw [h1, h2, ih _ (fun x hx => h x (List.mem_cons_of_mem _ hx))]
    rfl

theorem subErrLogs_mem {K : Type} (getKey : Record → Except PyErr K) (i : Nat)
    (subs : List Record) :
    ∀ j0 j sub kind, subs[j]? = some sub → getKey sub = .error (.invalidRecord kind) →
    LogEntry.loadSubErr i (j0 + j) kind ∈ subErrLogs getKey i j0 subs := by
  induction subs with
  | nil => intro j0 j sub kind hj _; simp at hj
  | cons s0 rest ih =>
    intro j0 j sub kind hj hk
    cases j with
    | zero =>
      simp at hj
      subst hj
      simp [subErrLogs, hk]
    | succ jj =>
      have hj' : rest[jj]? = some sub := by simpa using hj
      have hmem := ih (j0 + 1) jj sub kind hj' hk
      have harith : j0 + 1 + jj = j0 + (jj + 1) := by omega
      rw [harith] at hmem
      cases hks : getKey s0 with
      | ok k => simp [subErrLogs, hks, hmem]
      | error e =>
        cases e with
        | invalidRecord kind0 =>
          have hshape : subErrLogs getKey i j0 (s0 :: rest) =
              .loadSubErr i j0 kind0 :: subErrLogs getKey i (j0 + 1) rest := by
            simp [subErrLogs, hks]
          rw [hshape]
          exact List.mem_cons_of_mem _ hmem
        | keyError a => simp [subErrLogs, hks, hmem]
        | httpError n => simp [subErrLogs, hks, hmem]
        | typeError => simp [subErrLogs, hks, hmem]
        | attributeError => simp [subErrLogs, hks, hmem]

theorem ksLogsFrom_mem {K : Type} (split : Record → List Record × Option PyErr)
    (getKey : Record → Except PyErr K) (records : List Record) :
    ∀ i0 n r, records[n]? = some r →
    ∀ e ∈ recordLogs split getKey (i0 + n) r, e ∈ ksLogsFrom split getKey records i0 := by
  induction records with
  | nil => intro i0 n r hn; simp at hn
  | cons r0 rest ih =>
    intro i0 n r hn e he
    cases n with
    | zero =>
      simp at hn
      subst hn
      simp only [Nat.add_zero] at he
      exact List.mem_append_left _ he
    | succ nn =>
      have hn' : rest[nn]? = some r := by simpa using hn
      have harith : i0 + (nn + 1) = (i0 + 1) + nn := by omega
      rw [harith] at he
      exact List.mem_append_right _ (ih (i0 + 1) nn r hn' e he)

/-- C7: the local loader processes every record and never aborts on bad
individual records; an `InvalidRecord` raised while keying the j-th
sub-record of the i-th record is caught at that point and logged with both
indices, and only that sub-record is dropped: the resulting store holds
exactly the successfully keyed sub-records, so siblings of a failed
sub-record are still loaded. -/
theorem C7_load_isolates_invalid_subrecords {K : Type} [DecidableEq K]
    (split : Record → List Record × Option PyErr) (getKey : Record → Except PyErr K)
    (records : List Record)
    (h : ∀ r ∈ records, genOkOrInvalid split r ∧ ∀ sub ∈ (split r).1, keyOkOrInvalid getKey sub) :
    loadKsData split getKey records =
      (upsertFold [] (ksOkPairs split getKey records), ksLogsFrom split getKey records 0, none)
    ∧ (∀ i r j sub kind, records[i]? = some r → (split r).1[j]? = some sub →
        getKey sub = .error (.invalidRecord kind) →
        LogEntry.loadSubErr i j kind ∈ (loadKsData split getKey records).2.1)
    ∧ (∀ r ∈ records, ∀ sub ∈ (split r).1, ∀ k, getKey sub = .ok k →
        containsKeyB (loadKsData split getKey records).1 k = true) := by
  have hmain : loadKsData split getKey records =
      (upsertFold [] (ksOkPairs split getKey records), ksLogsFrom split getKey records 0, none) :=
    loadKsGo_spec split getKey records 0 [] h
  refine ⟨hmain, ?_, ?_⟩
  · intro i r j sub kind hi hj hk
    rw [hmain]
    have hsub : LogEntry.loadSubErr i j kind ∈ subErrLogs getKey i 0 (split r).1 := by
      have := subErrLogs_mem getKey i (split r).1 0 j sub kind hj hk
      simpa using this
    have hrec : LogEntry.loadSubErr i j kind ∈ recordLogs split getKey i r :=
      List.mem_append_left _ hsub
    have := ksLogsFrom_mem split getKey records 0 i r hi _ (by simpa using hrec)
    simpa using this
  · intro r hr sub hs k hk
    rw [hmain]
    have hpair : (k, sub) ∈ ksOkPairs split getKey records := by
      simp only [ksOkPairs, List.mem_flatMap]
      exact ⟨r, hr, by simp [okKeyPairs, List.mem_filterMap]; exact ⟨sub, hs, by simp [hk]⟩⟩
    have hkey : k ∈ keysOf (ksOkPairs split getKey records) :=
      List.mem_map.mpr ⟨(k, sub), hpair, rfl⟩
    have hlw := (lastWrite_isSome_iff (ksOkPairs split getKey records) k).mpr hkey
    rw [containsKeyB]
    rw [alookup_upsertFold]
    cases hlv : lastWrite (ksOkPairs split getKey records) k with
    | none => rw [hlv] at hlw; simp at hlw
    | some v => simp [hlv]

/-- Record that keys successfully, for the C7 witness. -/
def c7RecGood : Record := [("student_id", JVal.str "S1")]

/-- Record lacking the key field, for the C7 witness. -/
def c7RecBad : Record := [("other", JVal.str "x")]

/-- The default `SyncManager.split`: yield the record itself (translation is
exercised separately), for the C7 witness. -/
def c7Split : Record → List Record × Option PyErr := fun r => ([r], none)

/-- Witness for C7: a load over one good and one bad record logs the bad
sub-record with record index 1 and sub-record index 0. -/
theorem C7_load_isolates_invalid_subrecords_witness :
    LogEntry.loadSubErr 1 0 InvalidKind.missingKey ∈
      (loadKsData c7Split (getKeyValue "student_id") [c7RecGood, c7RecBad]).2.1 :=
  (C7_load_isolates_invalid_subrecords c7Split (getKeyValue "student_id") [c7RecGood, c7RecBad]
    (by
      intro r hr
      refine ⟨Or.inl rfl, ?_⟩
      intro sub hs
      have hsub : sub = r := by simpa [c7Split] using hs
      rw [hsub]
      rcases List.mem_cons.mp hr with h1 | hr2
      · subst h1; exact Or.inl ⟨JVal.str "S1", rfl⟩
      · have h2 : r = c7RecBad := by simpa using hr2
        subst h2; exact Or.inr ⟨InvalidKind.missingKey, rfl⟩)).2.1
    1 c7RecBad 0 c7RecBad InvalidKind.missingKey rfl rfl rfl

theorem getField_setField (r : Record) (a b : String) (v : JVal) :
    getField (setField r a v) b = if a = b then some v else getField r b :=
  alookup_upsert r a b v

theorem upsert_ne_nil {α β : Type} [DecidableEq α] (l : List (α × β)) (a : α) (b : β) :
    upsert l a b ≠ [] := by
  cases l with
  | nil => simp [upsert]
  | cons kv rest =>
    obtain ⟨k, v⟩ := kv
    by_cases h : k = a <;> simp [upsert, h]

theorem buildParentOutGo_spec (rec : Record) (pfx : String) :
    ∀ (l : List (String × String)) (out0 : Record),
    (∀ p ∈ l, ∃ s, getField rec (pfield pfx p.2) = some (JVal.str s)) →
    ∃ out, buildParentOutGo rec pfx l out0 = .ok out
      ∧ (out = [] ↔ (out0 = [] ∧ l.all (blankAt rec pfx) = true))
      ∧ (∀ a v, getField out a = some v →
          getField out0 a = some v ∨ ((∃ s, v = JVal.str s) ∧ a ∈ l.map Prod.fst)) := by
  intro l
  induction l with
  | nil =>
    intro out0 _
    exact ⟨out0, rfl, by simp, fun a v h => Or.inl h⟩
  | cons p rest ih =>
    intro out0 h
    obtain ⟨appsAttr, ksAttr⟩ := p
    obtain ⟨s, hs⟩ := h _ (List.mem_cons_self _ _)
    have hstep : buildParentOutGo rec pfx ((appsAttr, ksAttr) :: rest) out0 =
        buildParentOutGo rec pfx rest
          (if pyStrip s = "" then out0 else setField out0 appsAttr (.str (pyStrip s))) := by
      simp [buildParentOutGo, hs, stripVal]
    have hblank : blankAt rec pfx (appsAttr, ksAttr) = (pyStrip s == "") := by
      simp [blankAt, hs]
    have hallc : ((appsAttr, ksAttr) :: rest).all (blankAt rec pfx) =
        ((pyStrip s == "") && rest.all (blankAt rec pfx)) := by
      simp [List.all_cons, hblank]
    by_cases hb : pyStrip s = ""
    · obtain ⟨out, heq, hiff, hpres⟩ := ih out0 (fun q hq => h q (List.mem_cons_of_mem _ hq))
      refine ⟨out, ?_, ?_, ?_⟩
      · rw [hstep, if_pos hb]; exact heq
      · rw [hiff, hallc, hb]
        simp
      · intro a v hv
        rcases hpres a v hv with h1 | ⟨h2, h3⟩
        · exact Or.inl h1
        · exact Or.inr ⟨h2, List.mem_cons_of_mem _ h3⟩
    · obtain ⟨out, heq, hiff, hpres⟩ :=
        ih (setField out0 appsAttr (.str (pyStrip s))) (fun q hq => h q (List.mem_cons_of_mem _ hq))
      refine ⟨out, ?_, ?_, ?_⟩
      · rw [hstep, if_neg hb]; exact heq
      · constructor
        · intro ho
          exact absurd (hiff.mp ho).1 (upsert_ne_nil out0 appsAttr (JVal.str (pyStrip s)))
        · rintro ⟨h1, h2⟩
          exfalso
          rw [hallc, Bool.and_eq_true] at h2
          exact hb (by simpa using h2.1)
      · intro a v hv
        rcases hpres a v hv with h1 | ⟨h2, h3⟩
        · rw [getField_setField] at h1
          by_cases ha : appsAttr = a
          · rw [if_pos ha] at h1
            refine Or.inr ⟨⟨pyStrip s, (Option.some_injective _ h1).symm⟩, ?_⟩
            rw [← ha]
            exact List.mem_cons_self _ _
          · rw [if_neg ha] at h1
            exact Or.inl h1
        · exact Or.inr ⟨h2, List.mem_cons_of_mem _ h3⟩

theorem parentEnrich_spec (emailFn : String → JVal) (rec : Record) (pfx : String)
    (out : Record) (fam : JVal) (addr ph : String)
    (hfam : getField rec "IDFAMILY" = some fam)
    (haddr : getField rec "P_address_full" = some (JVal.str addr))
    (hph : getField rec "P_phone_H" = some (JVal.str ph))
    (hemail : ∀ v, getField out "email" = some v → ∃ s, v = JVal.str s) :
    ∃ res, parentEnrich emailFn rec pfx out = .ok res
      ∧ getField res "family_id" = some fam
      ∧ getField res "parent_id" = some (JVal.str pfx) := by
  have hfam1 : getField (setField (setField (setField (setField out "family_id" fam)
      "address" (JVal.str (pyStrip addr))) "phone_home" (JVal.str (pyStrip ph)))
      "parent_id" (JVal.str pfx)) "family_id" = some fam := by
    rw [getField_setField, if_neg (by decide), getField_setField, if_neg (by decide),
      getField_setField, if_neg (by decide), getField_setField, if_pos rfl]
  have hpar1 : getField (setField (setField (setField (setField out "family_id" fam)
      "address" (JVal.str (pyStrip addr))) "phone_home" (JVal.str (pyStrip ph)))
      "parent_id" (JVal.str pfx)) "parent_id" = some (JVal.str pfx) := by
    rw [getField_setField, if_pos rfl]
  have hem1 : getField (setField (setField (setField (setField out "family_id" fam)
      "address" (JVal.str (pyStrip addr))) "phone_home" (JVal.str (pyStrip ph)))
      "parent_id" (JVal.str pfx)) "email" = getField out "email" := by
    rw [getField_setField, if_neg (by decide), getField_setField, if_neg (by decide),
      getField_setField, if_neg (by decide), getField_setField, if_neg (by decide)]
  have hev : parentEnrich emailFn rec pfx out =
      (match getField (setField (setField (setField (setField out "family_id" fam)
          "address" (JVal.str (pyStrip addr))) "phone_home" (JVal.str (pyStrip ph)))
          "parent_id" (JVal.str pfx)) "email" with
       | none => .ok (setField (setField (setField (setField out "family_id" fam)
          "address" (JVal.str (pyStrip addr))) "phone_home" (JVal.str (pyStrip ph)))
          "parent_id" (JVal.str pfx))
       | some ev =>
         match stripVal ev with
         | .error e => .error e
         | .ok es => .ok (setField (setField (setField (setField (setField out "family_id" fam)
            "address" (JVal.str (pyStrip addr))) "phone_home" (JVal.str (pyStrip ph)))
            "parent_id" (JVal.str pfx)) "email" (emailFn es))) := by
    simp [parentEnrich, hfam, haddr, hph, stripVal]
  cases hgf : getField out "email" with
  | none =>
    refine ⟨_, ?_, hfam1, hpar1⟩
    rw [hev, hem1, hgf]
  | some ev =>
    obtain ⟨s, hse⟩ := hemail ev hgf
    subst hse
    refine ⟨setField (setField (setField (setField (setField out "family_id" fam)
        "address" (JVal.str (pyStrip addr))) "phone_home" (JVal.str (pyStrip ph)))
        "parent_id" (JVal.str pfx)) "email" (emailFn (pyStrip s)), ?_, ?_, ?_⟩
    · rw [hev, hem1, hgf]
      simp [stripVal]
    · rw [getField_setField, if_neg (by decide)]
      exact hfam1
    · rw [getField_setField, if_neg (by decide)]
      exact hpar1

theorem parentSplitOne_spec (emailFn : String → JVal) (rec : Record) (pfx : String)
    (fam : JVal) (addr ph : String)
    (hfam : getField rec "IDFAMILY" = some fam)
    (haddr : getField rec "P_address_full" = some (JVal.str addr))
    (hph : getField rec "P_phone_H" = some (JVal.str ph))
    (hsubs : ∀ p ∈ parentSubvalueMap, ∃ s, getField rec (pfield pfx p.2) = some (JVal.str s)) :
    (popB rec pfx = false ∧ parentSplitOne emailFn rec pfx = .ok none) ∨
    (popB rec pfx = true ∧ ∃ res, parentSplitOne emailFn rec pfx = .ok (some res)
      ∧ getField res "family_id" = some fam
      ∧ getField res "parent_id" = some (JVal.str pfx)) := by
  obtain ⟨out, heq, hiff, hpres⟩ := buildParentOutGo_spec rec pfx parentSubvalueMap [] hsubs
  by_cases ho : out = []
  · left
    constructor
    · have hall := (hiff.mp ho).2
      simp [popB, hall]
    · simp [parentSplitOne, heq, ho]
  · right
    constructor
    · by_cases hall : parentSubvalueMap.all (blankAt rec pfx) = true
      · exact absurd (hiff.mpr ⟨rfl, hall⟩) ho
      · have hall2 : parentSubvalueMap.all (blankAt rec pfx) = false := by
          revert hall
          cases parentSubvalueMap.all (blankAt rec pfx) <;> simp
        simp [popB, hall2]
    · have hemail : ∀ v, getField out "email" = some v → ∃ s, v = JVal.str s := by
        intro v hv
        rcases hpres "email" v hv with h1 | ⟨h2, _⟩
        · simp [getField] at h1
        · exact h2
      obtain ⟨res, hres, hf, hp⟩ :=
        parentEnrich_spec emailFn rec pfx out fam addr ph hfam haddr hph hemail
      refine ⟨res, ?_, hf, hp⟩
      have hne : out.isEmpty = false := by
        cases out with
        | nil => exact absurd rfl ho
        | cons _ _ => rfl
      simp [parentSplitOne, heq, hne, hres]

theorem parentSynthetic_spec (rec : Record) (fam : JVal) (addr ph : String)
    (hfam : getField rec "IDFAMILY" = some fam)
    (haddr : getField rec "P_address_full" = some (JVal.str addr))
    (hph : getField rec "P_phone_H" = some (JVal.str ph)) :
    parentSynthetic rec = .ok [("family_id", fam), ("parent_id", JVal.str "Pa"),
      ("address", JVal.str (pyStrip addr)), ("phone_home", JVal.str (pyStrip ph))] := by
  simp [parentSynthetic, hfam, haddr, hph, stripVal]

/-- Counterexample to C5 as stated: on a family record with only the Pa side
populated, `ParentManager.split` yields two sub-records (the Pa record and
the synthetic fallback), not exactly one, because the `did_create` flag is
never set. -/
theorem C5_parent_split_counterexample :
    (parentSplit c5EmailFn c5FamilyRec).1.length = 2
    ∧ (parentSplit c5EmailFn c5FamilyRec).2 = none := by
  constructor <;> rfl

/-- C5 as amended: with the family-level fields present and string-valued,
`ParentManager.split` yields one sub-record per populated parent marker plus,
always, the trailing synthetic minimal Pa record — so one marker populated
gives two yields, both populated give three, neither gives exactly the
synthetic one — and every yielded sub-record is keyed
`(family_id, "Pa")` or `(family_id, "Pb")`, the last one always
`(family_id, "Pa")`. -/
theorem C5_parent_split_amended (emailFn : String → JVal) (rec : Record) (fam : JVal)
    (addr ph : String)
    (hfam : getField rec "IDFAMILY" = some fam)
    (haddr : getField rec "P_address_full" = some (JVal.str addr))
    (hph : getField rec "P_phone_H" = some (JVal.str ph))
    (hpa : ∀ p ∈ parentSubvalueMap, ∃ s, getField rec (pfield "Pa" p.2) = some (JVal.str s))
    (hpb : ∀ p ∈ parentSubvalueMap, ∃ s, getField rec (pfield "Pb" p.2) = some (JVal.str s)) :
    (parentSplit emailFn rec).2 = none
    ∧ (parentSplit emailFn rec).1.length =
        (if popB rec "Pa" then 1 else 0) + (if popB rec "Pb" then 1 else 0) + 1
    ∧ (∀ sub ∈ (parentSplit emailFn rec).1,
        parentGetKey sub = .ok (fam, JVal.str "Pa") ∨ parentGetKey sub = .ok (fam, JVal.str "Pb"))
    ∧ (∃ syn, (parentSplit emailFn rec).1.getLast? = some syn
        ∧ parentGetKey syn = .ok (fam, JVal.str "Pa")) := by
  have hsyn := parentSynthetic_spec rec fam addr ph hfam haddr hph
  have hsynKey : parentGetKey [("family_id", fam), ("parent_id", JVal.str "Pa"),
      ("address", JVal.str (pyStrip addr)), ("phone_home", JVal.str (pyStrip ph))] =
      .ok (fam, JVal.str "Pa") := by
    simp [parentGetKey, getField]
  have hpaS := parentSplitOne_spec emailFn rec "Pa" fam addr ph hfam haddr hph hpa
  have hpbS := parentSplitOne_spec emailFn rec "Pb" fam addr ph hfam haddr hph hpb
  rcases hpaS with ⟨hpaF, hpaEq⟩ | ⟨hpaT, res1, hres1, hf1, hp1⟩ <;>
    rcases hpbS with ⟨hpbF, hpbEq⟩ | ⟨hpbT, res2, hres2, hf2, hp2⟩
  · have hsplit : parentSplit emailFn rec = ([[("family_id", fam), ("parent_id", JVal.str "Pa"),
        ("address", JVal.str (pyStrip addr)), ("phone_home", JVal.str (pyStrip ph))]], none) := by
      simp [parentSplit, hpaEq, hpbEq, hsyn]
    refine ⟨by rw [hsplit], by rw [hsplit]; simp [hpaF, hpbF], ?_, ?_⟩
    · rw [hsplit]
      intro sub hsub
      have : sub = _ := List.mem_singleton.mp hsub
      rw [this]
      exact Or.inl hsynKey
    · rw [hsplit]
      exact ⟨_, rfl, hsynKey⟩
  · have hsplit : parentSplit emailFn rec = ([res2, [("family_id", fam),
        ("parent_id", JVal.str "Pa"),
        ("address", JVal.str (pyStrip addr)), ("phone_home", JVal.str (pyStrip ph))]], none) := by
      simp [parentSplit, hpaEq, hres2, hsyn]
    refine ⟨by rw [hsplit], by rw [hsplit]; simp [hpaF, hpbT], ?_, ?_⟩
    · rw [hsplit]
      intro sub hsub
      rcases List.mem_cons.mp hsub with h1 | h2
      · rw [h1]
        exact Or.inr (by simp [parentGetKey, hf2, hp2])
      · have : sub = _ := List.mem_singleton.mp h2
        rw [this]
        exact Or.inl hsynKey
    · rw [hsplit]
      exact ⟨_, rfl, hsynKey⟩
  · have hsplit : parentSplit emailFn rec = ([res1, [("family_id", fam),
        ("parent_id", JVal.str "Pa"),
        ("address", JVal.str (pyStrip addr)), ("phone_home", JVal.str (pyStrip ph))]], none) := by
      simp [parentSplit, hres1, hpbEq, hsyn]
    refine ⟨by rw [hsplit], by rw [hsplit]; simp [hpaT, hpbF], ?_, ?_⟩
    · rw [hsplit]
      intro sub hsub
      rcases List.mem_cons.mp hsub with h1 | h2
      · rw [h1]
        exact Or.inl (by simp [parentGetKey, hf1, hp1])
      · have : sub = _ := List.mem_singleton.mp h2
        rw [this]
        exact Or.inl hsynKey
    · rw [hsplit]
      exact ⟨_, rfl, hsynKey⟩
  · have hsplit : parentSplit emailFn rec = ([res1, res2, [("family_id", fam),
        ("parent_id", JVal.str "Pa"),
        ("address", JVal.str (pyStrip addr)), ("phone_home", JVal.str (pyStrip ph))]], none) := by
      simp [parentSplit, hres1, hres2, hsyn]
    refine ⟨by rw [hsplit], by rw [hsplit]; simp [hpaT, hpbT], ?_, ?_⟩
    · rw [hsplit]
      intro sub hsub
      rcases List.mem_cons.mp hsub with h1 | h2
      · rw [h1]
        exact Or.inl (by simp [parentGetKey, hf1, hp1])
      · rcases List.mem_cons.mp h2 with h3 | h4
        · rw [h3]
          exact Or.inr (by simp [parentGetKey, hf2, hp2])
        · have : sub = _ := List.mem_singleton.mp h4
          rw [this]
          exact Or.inl hsynKey
    · rw [hsplit]
      exact ⟨_, rfl, hsynKey⟩

/-- Witness for the amended C5: a family record with both parent sides
populated yields three sub-records. -/
theorem C5_parent_split_amended_witness :
    (parentSplit c5EmailFn c5FamilyRecBoth).1.length = 3 := by
  have h := C5_parent_split_amended c5EmailFn c5FamilyRecBoth (JVal.str "F2") "addr" "555"
    rfl rfl rfl
    (by
      intro p hp
      simp only [parentSubvalueMap, List.mem_cons, List.not_mem_nil, or_false] at hp
      rcases hp with h|h|h|h|h|h|h <;> subst h <;> exact ⟨_, rfl⟩)
    (by
      intro p hp
      simp only [parentSubvalueMap, List.mem_cons, List.not_mem_nil, or_false] at hp
      rcases hp with h|h|h|h|h|h|h <;> subst h <;> exact ⟨_, rfl⟩)
  rw [h.2.1]
  rfl

theorem subErrLogs_nil_of_ok {K : Type} (getKey : Record → Except PyErr K) (i : Nat) :
    ∀ (subs : List Record) (j : Nat), (∀ sub ∈ subs, ∃ k, getKey sub = .ok k) →
    subErrLogs getKey i j subs = [] := by
  intro subs
  induction subs with
  | nil => intro j _; rfl
  | cons sub rest ih =>
    intro j h
    obtain ⟨k, hk⟩ := h sub (List.mem_cons_self _ _)
    have := ih (j + 1) (fun x hx => h x (List.mem_cons_of_mem _ hx))
    simp [subErrLogs, hk, this]

theorem ksLogsFrom_nil {K : Type} (split : Record → List Record × Option PyErr)
    (getKey : Record → Except PyErr K) :
    ∀ (records : List Record) (i : Nat),
    (∀ r ∈ records, (split r).2 = none ∧ ∀ sub ∈ (split r).1, ∃ k, getKey sub = .ok k) →
    ksLogsFrom split getKey records i = [] := by
  intro records
  induction records with
  | nil => intro i _; rfl
  | cons r rest ih =>
    intro i h
    obtain ⟨hgen, hsubs⟩ := h r (List.mem_cons_self _ _)
    have hrl : recordLogs split getKey i r = [] := by
      simp [recordLogs, hgen, subErrLogs_nil_of_ok getKey i (split r).1 0 hsubs]
    have := ih (i + 1) (fun x hx => h x (List.mem_cons_of_mem _ hx))
    simp [ksLogsFrom, hrl, this]

/-- C10: both loaders keep only the record processed last for a duplicated
key, silently — no log line, no error — and in particular the trailing
synthetic Pa sub-record of `ParentManager.split` overwrites the populated Pa
sub-record loaded under the same `(family_id, "Pa")` key for the same family
record. -/
theorem C10_load_last_wins {K : Type} [DecidableEq K] (getKey : Record → Except PyErr K)
    (split : Record → List Record × Option PyErr) (records : List Record) :
    ((∀ r ∈ records, ∃ k, getKey r = .ok k) →
      loadAppsData getKey records = (upsertFold [] (okKeyPairs getKey records), none)
      ∧ ∀ a, alookup (loadAppsData getKey records).1 a = lastWrite (okKeyPairs getKey records) a)
    ∧ ((∀ r ∈ records, (split r).2 = none ∧ ∀ sub ∈ (split r).1, ∃ k, getKey sub = .ok k) →
      (loadKsData split getKey records).2.1 = []
      ∧ (loadKsData split getKey records).2.2 = none
      ∧ ∀ a, alookup (loadKsData split getKey records).1 a =
          lastWrite (ksOkPairs split getKey records) a)
    ∧ loadKsData (parentSplit c5EmailFn) parentGetKey [c5FamilyRec] =
        ([((JVal.str "F1", JVal.str "Pa"),
            [("family_id", JVal.str "F1"), ("parent_id", JVal.str "Pa"),
             ("address", JVal.str ""), ("phone_home", JVal.str "")])], [], none) := by
  refine ⟨?_, ?_, ?_⟩
  · intro h
    have heq : loadAppsData getKey records = (upsertFold [] (okKeyPairs getKey records), none) :=
      loadAppsGo_spec getKey records [] h
    refine ⟨heq, ?_⟩
    intro a
    rw [heq]
    rw [show (upsertFold [] (okKeyPairs getKey records), (none : Option PyErr)).1 =
      upsertFold [] (okKeyPairs getKey records) from rfl]
    rw [alookup_upsertFold]
    cases lastWrite (okKeyPairs getKey records) a <;> rfl
  · intro h
    have h' : ∀ r ∈ records, genOkOrInvalid split r ∧
        ∀ sub ∈ (split r).1, keyOkOrInvalid getKey sub := by
      intro r hr
      exact ⟨Or.inl (h r hr).1, fun sub hs => Or.inl ((h r hr).2 sub hs)⟩
    have heq := loadKsGo_spec split getKey records 0 [] h'
    have hlogs : ksLogsFrom split getKey records 0 = [] :=
      ksLogsFrom_nil split getKey records 0 h
    refine ⟨?_, ?_, ?_⟩
    · rw [loadKsData, heq, hlogs]
    · rw [loadKsData, heq]
    · intro a
      rw [loadKsData, heq]
      rw [show (upsertFold [] (ksOkPairs split getKey records), ksLogsFrom split getKey records 0,
        (none : Option PyErr)).1 = upsertFold [] (ksOkPairs split getKey records) from rfl]
      rw [alookup_upsertFold]
      cases lastWrite (ksOkPairs split getKey records) a <;> rfl
  · rfl

/-- Witness for C10: loading two remote records with the same key keeps only
the one processed last. -/
theorem C10_load_last_wins_witness :
    alookup (loadAppsData (getKeyValue "student_id") [c10Rec1, c10Rec2]).1 (JVal.str "S1")
      = some c10Rec2 := by
  have h := (C10_load_last_wins (getKeyValue "student_id") c7Split [c10Rec1, c10Rec2]).1
    (by
      intro r hr
      rcases List.mem_cons.mp hr with h1 | h2
      · rw [h1]; exact ⟨JVal.str "S1", rfl⟩
      · have h3 : r = c10Rec2 := List.mem_singleton.mp h2
        rw [h3]; exact ⟨JVal.str "S1", rfl⟩)
  rw [h.2 (JVal.str "S1")]
  rfl

theorem logsForAttr_none_of_ok {K : Type} (key : K) (d : Record) (attr : String)
    (errors : JVal) (h : errAttrOk d attr errors = true) :
    (logsForAttr key d attr errors).2 = none := by
  cases errors with
  | str m =>
    by_cases hd : attr = "detail"
    · simp [logsForAttr, hd]
    · have hbd : (attr == "detail") = false := by
        simp [hd]
      simp only [errAttrOk, hbd, Bool.false_or, Bool.or_eq_true] at h
      cases hm : m.data with
      | nil => simp [logsForAttr, hd, attrErrorLogs, iterMsgs, hm]
      | cons c cs =>
        rw [hm] at h
        simp at h
        cases hg : getField d attr with
        | none => rw [hg] at h; simp at h
        | some v => simp [logsForAttr, hd, attrErrorLogs, iterMsgs, hm, hg]
  | arr xs =>
    cases xs with
    | nil => simp [logsForAttr, attrErrorLogs, iterMsgs]
    | cons x rest =>
      simp only [errAttrOk] at h
      simp at h
      cases hg : getField d attr with
      | none => rw [hg] at h; simp at h
      | some v => simp [logsForAttr, attrErrorLogs, iterMsgs, hg]
  | null => simp [errAttrOk] at h
  | boolean b => simp [errAttrOk] at h
  | num n => simp [errAttrOk] at h

theorem processErrBody_none_of_ok {K : Type} (key : K) (d : Record) :
    ∀ (body : List (String × JVal)), errBodyOk d body = true →
    (processErrBody key d body).2 = none := by
  intro body
  induction body with
  | nil => intro _; rfl
  | cons p rest ih =>
    intro h
    obtain ⟨attr, errors⟩ := p
    rw [errBodyOk, List.all_cons, Bool.and_eq_true] at h
    have h1 := logsForAttr_none_of_ok key d attr errors h.1
    have h2 := ih h.2
    simp [processErrBody, h1, h2]

theorem processErrBody_mem {K : Type} (key : K) (d : Record) :
    ∀ (body : List (String × JVal)), errBodyOk d body = true →
    ∀ attr errors, (attr, errors) ∈ body →
    ∀ e ∈ (logsForAttr key d attr errors).1, e ∈ (processErrBody key d body).1 := by
  intro body
  induction body with
  | nil => intro _ attr errors hmem; cases hmem
  | cons p rest ih =>
    intro h attr errors hmem e he
    obtain ⟨pa, pe⟩ := p
    rw [errBodyOk, List.all_cons, Bool.and_eq_true] at h
    have h1 := logsForAttr_none_of_ok key d pa pe h.1
    have hstep : (processErrBody key d ((pa, pe) :: rest)).1 =
        (logsForAttr key d pa pe).1 ++ (processErrBody key d rest).1 := by
      simp [processErrBody, h1]
    rw [hstep]
    rcases List.mem_cons.mp hmem with heq | hmem2
    · rw [Prod.mk.injEq] at heq
      obtain ⟨ha, he2⟩ := heq
      subst ha; subst he2
      exact List.mem_append_left _ he
    · exact List.mem_append_right _ (ih h.2 attr errors hmem2 e he)

theorem createOne_4xx {K : Type} (post : K → Record → HResp) (k : K) (d : Record)
    (h4 : 400 ≤ (post k d).status) (h5 : (post k d).status < 500)
    (hok : errBodyOk d (post k d).body = true) :
    (createOne post k d).1 = none
    ∧ (createOne post k d).2.2 = none
    ∧ (createOne post k d).2.1 =
        LogEntry.createWarn k (post k d).status :: (processErrBody k d (post k d).body).1 := by
  have hp := processErrBody_none_of_ok k d (post k d).body hok
  simp only [createOne]
  rw [if_pos (⟨h4, h5⟩ : 400 ≤ (post k d).status ∧ (post k d).status < 500)]
  exact ⟨rfl, by simpa using hp, rfl⟩

theorem createOne_success {K : Type} (post : K → Record → HResp) (k : K) (d : Record)
    (hlt : (post k d).status < 400) (u : JVal)
    (hurl : getField (post k d).body "url" = some u) :
    createOne post k d =
      (some (post k d).body, [LogEntry.createdOk k u (post k d).status], none) := by
  have h1 : ¬ (400 ≤ (post k d).status ∧ (post k d).status < 500) := by omega
  have h2 : ¬ (400 ≤ (post k d).status ∧ (post k d).status < 600) := by omega
  simp only [createOne]
  rw [if_neg h1, if_neg h2, hurl]

theorem createOne_5xx {K : Type} (post : K → Record → HResp) (k : K) (d : Record)
    (h5 : 500 ≤ (post k d).status) (h6 : (post k d).status < 600) :
    (createOne post k d).2.2 = some (.httpError (post k d).status) := by
  have h1 : ¬ (400 ≤ (post k d).status ∧ (post k d).status < 500) := by omega
  have h2 : 400 ≤ (post k d).status ∧ (post k d).status < 600 := ⟨by omega, h6⟩
  simp only [createOne]
  rw [if_neg h1, if_pos h2]

theorem createOne_handled {K : Type} (post : K → Record → HResp) (k : K) (d : Record)
    (h : respHandled d (post k d) = true) : (createOne post k d).2.2 = none := by
  by_cases h1 : 400 ≤ (post k d).status ∧ (post k d).status < 500
  · have hok : errBodyOk d (post k d).body = true := by
      rw [respHandled, if_pos h1] at h; exact h
    exact (createOne_4xx post k d h1.1 h1.2 hok).2.1
  · by_cases h2 : (post k d).status < 400
    · rw [respHandled, if_neg h1, if_pos h2] at h
      obtain ⟨u, hu⟩ := Option.isSome_iff_exists.mp h
      rw [createOne_success post k d h2 u hu]
    · rw [respHandled, if_neg h1, if_neg h2] at h; cases h

theorem createGo_ok {K : Type} [DecidableEq K] (post : K → Record → HResp) :
    ∀ (l : List (K × Record)) (s : Store K),
    (∀ kv ∈ l, (createOne post kv.1 kv.2).2.2 = none) →
    createGo post l s = (createStoreFold post l s, createLogsFlat post l, none) := by
  intro l
  induction l with
  | nil => intro s _; simp [createGo, createStoreFold, createLogsFlat]
  | cons kv rest ih =>
    intro s h
    obtain ⟨k, d⟩ := kv
    have hk := h (k, d) (List.mem_cons_self _ _)
    have hrest := fun x hx => h x (List.mem_cons_of_mem _ hx)
    cases hc : (createOne post k d).1 with
    | none =>
      have hstep : createGo post ((k, d) :: rest) s =
          ((createGo post rest s).1, (createOne post k d).2.1 ++ (createGo post rest s).2.1,
            (createGo post rest s).2.2) := by
        simp [createGo, hk, hc]
      have hsf : createStoreFold post ((k, d) :: rest) s = createStoreFold post rest s := by
        simp [createStoreFold, hc]
      have hlf : createLogsFlat post ((k, d) :: rest) =
          (createOne post k d).2.1 ++ createLogsFlat post rest := by
        simp [createLogsFlat]
      rw [hstep, ih s hrest, hsf, hlf]
    | some data =>
      have hstep : createGo post ((k, d) :: rest) s =
          ((createGo post rest (upsert s k data)).1,
            (createOne post k d).2.1 ++ (createGo post rest (upsert s k data)).2.1,
            (createGo post rest (upsert s k data)).2.2) := by
        simp [createGo, hk, hc]
      have hsf : createStoreFold post ((k, d) :: rest) s =
          createStoreFold post rest (upsert s k data) := by
        simp [createStoreFold, hc]
      have hlf : createLogsFlat post ((k, d) :: rest) =
          (createOne post k d).2.1 ++ createLogsFlat post rest := by
        simp [createLogsFlat]
      rw [hstep, ih _ hrest, hsf, hlf]

theorem createGo_none_iff {K : Type} [DecidableEq K] (post : K → Record → HResp) :
    ∀ (l : List (K × Record)) (s : Store K),
    ((createGo post l s).2.2 = none ↔ ∀ kv ∈ l, (createOne post kv.1 kv.2).2.2 = none) := by
  intro l
  induction l with
  | nil => intro s; simp [createGo]
  | cons kv rest ih =>
    intro s
    obtain ⟨k, d⟩ := kv
    cases he : (createOne post k d).2.2 with
    | some e =>
      have hstep : (createGo post ((k, d) :: rest) s).2.2 = some e := by
        simp [createGo, he]
      rw [hstep]
      constructor
      · intro hfalse; cases hfalse
      · intro hall
        have := hall (k, d) (List.mem_cons_self _ _)
        rw [he] at this; cases this
    | none =>
      have hstep : ∀ s2, (createGo post ((k, d) :: rest) s).2.2 = (createGo post rest s2).2.2
          → ((createGo post ((k, d) :: rest) s).2.2 = none ↔
              ∀ kv ∈ (k, d) :: rest, (createOne post kv.1 kv.2).2.2 = none) := by
        intro s2 heq
        rw [heq, ih s2]
        constructor
        · intro hall kv hkv
          rcases List.mem_cons.mp hkv with h1 | h2
          · rw [h1]; exact he
          · exact hall kv h2
        · intro hall kv hkv
          exact hall kv (List.mem_cons_of_mem _ hkv)
      cases hc : (createOne post k d).1 with
      | none => exact hstep s (by simp [createGo, he, hc])
      | some data => exact hstep (upsert s k data) (by simp [createGo, he, hc])

theorem createStoreFold_eq_upsertFold {K : Type} [DecidableEq K] (post : K → Record → HResp) :
    ∀ (l : List (K × Record)) (s : Store K),
    createStoreFold post l s = upsertFold s (createWrites post l) := by
  intro l
  induction l with
  | nil => intro s; rfl
  | cons kv rest ih =>
    intro s
    obtain ⟨k, d⟩ := kv
    cases hc : (createOne post k d).1 with
    | none =>
      have h1 : createStoreFold post ((k, d) :: rest) s = createStoreFold post rest s := by
        simp [createStoreFold, hc]
      have h2 : createWrites post ((k, d) :: rest) = createWrites post rest := by
        simp [createWrites, hc]
      rw [h1, h2, ih]
    | some data =>
      have h1 : createStoreFold post ((k, d) :: rest) s =
          createStoreFold post rest (upsert s k data) := by
        simp [createStoreFold, hc]
      have h2 : createWrites post ((k, d) :: rest) = (k, data) :: createWrites post rest := by
        simp [createWrites, hc]
      rw [h1, h2, ih]
      rfl

theorem lastWrite_eq_none {α β : Type} [DecidableEq α] (pairs : List (α × β)) (a : α)
    (h : ∀ p ∈ pairs, p.1 ≠ a) : lastWrite pairs a = none := by
  induction pairs with
  | nil => rfl
  | cons kv rest ih =>
    have h1 := h kv (List.mem_cons_self _ _)
    have h2 := ih (fun p hp => h p (List.mem_cons_of_mem _ hp))
    simp [lastWrite, h2, h1]

theorem lastWrite_mem {α β : Type} [DecidableEq α] (pairs : List (α × β)) (a : α) (v : β)
    (h : lastWrite pairs a = some v) : (a, v) ∈ pairs := by
  induction pairs with
  | nil => cases h
  | cons kv rest ih =>
    cases hlw : lastWrite rest a with
    | some w =>
      have heq : w = v := by
        rw [lastWrite, hlw] at h
        exact Option.some_injective _ h
      subst heq
      exact List.mem_cons_of_mem _ (ih hlw)
    | none =>
      rw [lastWrite, hlw] at h
      by_cases hk : kv.1 = a
      · rw [if_pos hk] at h
        have hv : kv.2 = v := Option.some_injective _ h
        have : kv = (a, v) := Prod.ext hk hv
        rw [← this]
        exact List.mem_cons_self _ _
      · rw [if_neg hk] at h; cases h

theorem lastWrite_of_unique {α β : Type} [DecidableEq α] (pairs : List (α × β)) (p : α × β)
    (hp : p ∈ pairs) (huniq : ∀ q ∈ pairs, q.1 = p.1 → q = p) :
    lastWrite pairs p.1 = some p.2 := by
  cases hlw : lastWrite pairs p.1 with
  | none =>
    exfalso
    have hkey : p.1 ∈ keysOf pairs := List.mem_map.mpr ⟨p, hp, rfl⟩
    have := (lastWrite_isSome_iff pairs p.1).mpr hkey
    rw [hlw] at this
    simp at this
  | some v =>
    have hm := lastWrite_mem pairs p.1 v hlw
    have := huniq (p.1, v) hm rfl
    rw [show v = p.2 from congrArg Prod.snd this]

theorem eq_of_mem_of_nodup_keys {α β : Type} :
    ∀ (l : List (α × β)), (keysOf l).Nodup →
    ∀ (p q : α × β), p ∈ l → q ∈ l → p.1 = q.1 → p = q := by
  intro l
  induction l with
  | nil => intro _ p q hp; cases hp
  | cons kv rest ih =>
    intro h p q hp hq hpq
    have hnd := List.nodup_cons.mp h
    rcases List.mem_cons.mp hp with hp1 | hp2 <;> rcases List.mem_cons.mp hq with hq1 | hq2
    · rw [hp1, hq1]
    · exfalso
      apply hnd.1
      rw [show kv.1 = q.1 from by rw [← hp1]; exact hpq]
      exact List.mem_map.mpr ⟨q, hq2, rfl⟩
    · exfalso
      apply hnd.1
      rw [show kv.1 = p.1 from by rw [← hq1]; exact hpq.symm]
      exact List.mem_map.mpr ⟨p, hp2, rfl⟩
    · exact ih hnd.2 p q hp2 hq2 hpq

theorem toCreatePairs_keys_nodup {K : Type} [DecidableEq K] (ks apps : Store K)
    (h : (keysOf ks).Nodup) : (keysOf (toCreatePairs ks apps)).Nodup :=
  ((List.filter_sublist ks).map Prod.fst).nodup h

theorem toCreatePairs_not_in_apps {K : Type} [DecidableEq K] (ks apps : Store K)
    (kv : K × Record) (hkv : kv ∈ toCreatePairs ks apps) : alookup apps kv.1 = none := by
  simp only [toCreatePairs, List.mem_filter] at hkv
  have := hkv.2
  cases ha : alookup apps kv.1 with
  | none => rfl
  | some r => rw [containsKeyB, ha] at this; simp at this

theorem createWrites_key_mem {K : Type} (post : K → Record → HResp) (l : List (K × Record))
    (q : K × Record) (hq : q ∈ createWrites post l) :
    ∃ kv ∈ l, kv.1 = q.1 ∧ (createOne post kv.1 kv.2).1 = some q.2 := by
  simp only [createWrites, List.mem_filterMap] at hq
  obtain ⟨kv, hkv, hf⟩ := hq
  cases hc : (createOne post kv.1 kv.2).1 with
  | none => rw [hc] at hf; cases hf
  | some data =>
    rw [hc] at hf
    have hf2 : (kv.1, data) = q := Option.some_injective _ hf
    have h1 : kv.1 = q.1 := by rw [← hf2]
    have h2 : data = q.2 := by rw [← hf2]
    exact ⟨kv, hkv, h1, by rw [hc, h2]⟩

theorem createWrites_mem_of {K : Type} (post : K → Record → HResp) (l : List (K × Record))
    (kv : K × Record) (data : Record) (hkv : kv ∈ l)
    (hc : (createOne post kv.1 kv.2).1 = some data) :
    (kv.1, data) ∈ createWrites post l := by
  simp only [createWrites, List.mem_filterMap]
  exact ⟨kv, hkv, by rw [hc]; rfl⟩

theorem createPhase_eq {K : Type} [DecidableEq K] (post : K → Record → HResp)
    (ks apps : Store K)
    (hallok : ∀ kv ∈ toCreatePairs ks apps, (createOne post kv.1 kv.2).2.2 = none) :
    createPhase post ks apps =
      (createStoreFold post (toCreatePairs ks apps) apps,
       createLogsFlat post (toCreatePairs ks apps), none) :=
  createGo_ok post _ apps hallok

theorem createPhase_lookup {K : Type} [DecidableEq K] (post : K → Record → HResp)
    (ks apps : Store K) (hnd : (keysOf ks).Nodup) (kv : K × Record)
    (hkv : kv ∈ toCreatePairs ks apps)
    (hallok : ∀ p ∈ toCreatePairs ks apps, (createOne post p.1 p.2).2.2 = none) :
    alookup (createPhase post ks apps).1 kv.1 = (createOne post kv.1 kv.2).1 := by
  rw [createPhase_eq post ks apps hallok]
  show alookup (createStoreFold post (toCreatePairs ks apps) apps) kv.1 = _
  rw [createStoreFold_eq_upsertFold, alookup_upsertFold]
  have hnd2 := toCreatePairs_keys_nodup ks apps hnd
  have happs := toCreatePairs_not_in_apps ks apps kv hkv
  cases hc : (createOne post kv.1 kv.2).1 with
  | none =>
    have hlw : lastWrite (createWrites post (toCreatePairs ks apps)) kv.1 = none := by
      apply lastWrite_eq_none
      intro p hp hpk
      obtain ⟨kv2, hkv2, hk2, hc2⟩ := createWrites_key_mem post _ p hp
      have heq : kv2 = kv := by
        apply eq_of_mem_of_nodup_keys _ hnd2 kv2 kv hkv2 hkv
        rw [hk2, hpk]
      rw [heq, hc] at hc2
      cases hc2
    rw [hlw]
    exact happs
  | some data =>
    have hmem := createWrites_mem_of post _ kv data hkv hc
    have huniq : ∀ q ∈ createWrites post (toCreatePairs ks apps),
        q.1 = (kv.1, data).1 → q = (kv.1, data) := by
      intro q hq hqk
      obtain ⟨kv2, hkv2, hk2, hc2⟩ := createWrites_key_mem post _ q hq
      have heq : kv2 = kv := by
        apply eq_of_mem_of_nodup_keys _ hnd2 kv2 kv hkv2 hkv
        rw [hk2]; exact hqk
      rw [heq, hc] at hc2
      have hq2 : q.2 = data := (Option.some_injective _ hc2).symm
      exact Prod.ext hqk hq2
    have hlw := lastWrite_of_unique (createWrites post (toCreatePairs ks apps))
      (kv.1, data) hmem huniq
    show ((lastWrite (createWrites post (toCreatePairs ks apps)) kv.1).elim
      (alookup apps kv.1) some) = some data
    rw [show lastWrite (createWrites post (toCreatePairs ks apps)) kv.1 = some data from hlw]
    rfl

theorem createPhase_log_mem {K : Type} [DecidableEq K] (post : K → Record → HResp)
    (ks apps : Store K) (kv : K × Record) (hkv : kv ∈ toCreatePairs ks apps)
    (hallok : ∀ p ∈ toCreatePairs ks apps, (createOne post p.1 p.2).2.2 = none) :
    ∀ e ∈ (createOne post kv.1 kv.2).2.1, e ∈ (createPhase post ks apps).2.1 := by
  intro e he
  rw [createPhase_eq post ks apps hallok]
  show e ∈ createLogsFlat post (toCreatePairs ks apps)
  exact List.mem_flatMap.mpr ⟨kv, hkv, he⟩

/-- C3 as amended: the create loop finishes with no error exactly when every
create-set response is individually non-fatal; a 5xx response is fatal
(`raise_for_status`); and when every response is handled — a 4xx whose body
logs cleanly, or a sub-400 status carrying a url — the pass continues
through the whole create set, a 4xx-rejected record stays absent from the
current store while its field-level errors (and a string-valued `detail`
message) are all logged, and any sub-400 response (2xx or otherwise, e.g.
304) has its body stored under the record's key. -/
theorem C3_create_phase {K : Type} [DecidableEq K] (post : K → Record → HResp)
    (ks apps : Store K) (hnd : (keysOf ks).Nodup) :
    ((createPhase post ks apps).2.2 = none ↔
      ∀ kv ∈ toCreatePairs ks apps, (createOne post kv.1 kv.2).2.2 = none)
    ∧ (∀ k d, 500 ≤ (post k d).status → (post k d).status < 600 →
        (createOne post k d).2.2 = some (.httpError (post k d).status))
    ∧ ((∀ kv ∈ toCreatePairs ks apps, respHandled kv.2 (post kv.1 kv.2) = true) →
        (createPhase post ks apps).2.2 = none
        ∧ ∀ kv ∈ toCreatePairs ks apps,
            (400 ≤ (post kv.1 kv.2).status →
              alookup (createPhase post ks apps).1 kv.1 = none
              ∧ LogEntry.createWarn kv.1 (post kv.1 kv.2).status ∈ (createPhase post ks apps).2.1
              ∧ (∀ attr errors, (attr, errors) ∈ (post kv.1 kv.2).body →
                  (∀ m, errors = JVal.str m → attr = "detail" →
                    LogEntry.createDetail kv.1 m ∈ (createPhase post ks apps).2.1)
                  ∧ (∀ xs, errors = JVal.arr xs → ∀ m ∈ xs,
                      ∃ v, getField kv.2 attr = some v
                        ∧ LogEntry.createField kv.1 attr m v ∈ (createPhase post ks apps).2.1)))
            ∧ ((post kv.1 kv.2).status < 400 →
              alookup (createPhase post ks apps).1 kv.1 = some (post kv.1 kv.2).body)) := by
  refine ⟨createGo_none_iff post (toCreatePairs ks apps) apps,
    fun k d h5 h6 => createOne_5xx post k d h5 h6, ?_⟩
  intro hall
  have hallok : ∀ p ∈ toCreatePairs ks apps, (createOne post p.1 p.2).2.2 = none :=
    fun p hp => createOne_handled post p.1 p.2 (hall p hp)
  refine ⟨(createGo_none_iff post (toCreatePairs ks apps) apps).mpr hallok, ?_⟩
  intro kv hkv
  refine ⟨?_, ?_⟩
  · intro h400
    have hh := hall kv hkv
    have h500 : (post kv.1 kv.2).status < 500 := by
      by_contra hge
      push_neg at hge
      have h1 : ¬ (400 ≤ (post kv.1 kv.2).status ∧ (post kv.1 kv.2).status < 500) := by omega
      have h2 : ¬ ((post kv.1 kv.2).status < 400) := by omega
      rw [respHandled, if_neg h1, if_neg h2] at hh
      cases hh
    have hok : errBodyOk kv.2 (post kv.1 kv.2).body = true := by
      rw [respHandled, if_pos ⟨h400, h500⟩] at hh; exact hh
    obtain ⟨hc1, hcerr, hclogs⟩ := createOne_4xx post kv.1 kv.2 h400 h500 hok
    refine ⟨?_, ?_, ?_⟩
    · rw [createPhase_lookup post ks apps hnd kv hkv hallok, hc1]
    · apply createPhase_log_mem post ks apps kv hkv hallok
      rw [hclogs]
      exact List.mem_cons_self _ _
    · intro attr errors hmem
      constructor
      · intro m hms hdet
        apply createPhase_log_mem post ks apps kv hkv hallok
        rw [hclogs]
        apply List.mem_cons_of_mem
        apply processErrBody_mem kv.1 kv.2 _ hok attr errors hmem
        subst hms
        subst hdet
        simp [logsForAttr]
      · intro xs hxs m hm
        have hatt : errAttrOk kv.2 attr errors = true := by
          rw [errBodyOk] at hok
          exact List.all_eq_true.mp hok (attr, errors) hmem
        rw [hxs] at hatt
        have hxe : xs.isEmpty = false := by
          cases xs with
          | nil => cases hm
          | cons y ys => rfl
        simp only [errAttrOk, hxe, Bool.false_or] at hatt
        obtain ⟨v, hv⟩ := Option.isSome_iff_exists.mp hatt
        refine ⟨v, hv, ?_⟩
        apply createPhase_log_mem post ks apps kv hkv hallok
        rw [hclogs]
        apply List.mem_cons_of_mem
        apply processErrBody_mem kv.1 kv.2 _ hok attr errors hmem
        rw [hxs]
        simp only [logsForAttr, attrErrorLogs, iterMsgs, hxe, hv]
        simp only [if_neg (by simp : ¬ false = true)]
        exact List.mem_map.mpr ⟨m, hm, rfl⟩
  · intro hlt
    have hh := hall kv hkv
    have h1 : ¬ (400 ≤ (post kv.1 kv.2).status ∧ (post kv.1 kv.2).status < 500) := by omega
    rw [respHandled, if_neg h1, if_pos hlt] at hh
    obtain ⟨u, hu⟩ := Option.isSome_iff_exists.mp hh
    have hc := createOne_success post kv.1 kv.2 hlt u hu
    rw [createPhase_lookup post ks apps hnd kv hkv hallok, hc]

/-- Counterexample to C3 as stated: a 304 Not Modified response — non-2xx and
outside 4xx — is not fatal: `raise_for_status` only raises for 400..599, so
the create loop finishes with no error and even stores the response body. -/
theorem C3_create_phase_counterexample :
    (createPhase c3Post c3Ks []).2.2 = none
    ∧ alookup (createPhase c3Post c3Ks []).1 (JVal.str "S1")
        = some [("url", JVal.str "u1")] := by
  constructor <;> rfl

/-- Witness for the amended C3: with one record rejected by a 4xx field error
and another created with 201, the rejected key stays absent from the current
store. -/
theorem C3_create_phase_witness :
    alookup (createPhase c3PostMix c3KsMix []).1 (JVal.str "S1") = none := by
  have h := (C3_create_phase c3PostMix c3KsMix [] (by decide)).2.2 (by decide)
  exact ((h.2 (JVal.str "S1", [("student_id", JVal.str "S1"), ("email", JVal.str "bad")])
    (by decide)).1 (by decide)).1

theorem translateFieldsGo_err (ftrans : String → Option (JVal → JVal)) (rec : Record) :
    ∀ (l : List (String × String)) (out0 : Record) (e : PyErr),
    translateFieldsGo ftrans rec l out0 = .error e →
    ∃ p ∈ l, e = .keyError p.2 ∧ getField rec p.2 = none := by
  intro l
  induction l with
  | nil => intro out0 e h; cases h
  | cons p rest ih =>
    intro out0 e h
    obtain ⟨appsAttr, ksAttr⟩ := p
    cases hg : getField rec ksAttr with
    | none =>
      have hstep : translateFieldsGo ftrans rec ((appsAttr, ksAttr) :: rest) out0 =
          .error (.keyError ksAttr) := by simp [translateFieldsGo, hg]
      rw [hstep] at h
      injection h with he
      exact ⟨(appsAttr, ksAttr), List.mem_cons_self _ _, he.symm, hg⟩
    | some v0 =>
      have hstep : translateFieldsGo ftrans rec ((appsAttr, ksAttr) :: rest) out0 =
          translateFieldsGo ftrans rec rest
            (setField out0 appsAttr (translatedValue ftrans appsAttr v0)) := by
        simp [translateFieldsGo, hg]
      rw [hstep] at h
      obtain ⟨q, hq, hqe, hqg⟩ := ih _ e h
      exact ⟨q, List.mem_cons_of_mem _ hq, hqe, hqg⟩

theorem translateFieldsGo_ok (ftrans : String → Option (JVal → JVal)) (rec : Record) :
    ∀ (l : List (String × String)) (out0 : Record),
    (∀ p ∈ l, (getField rec p.2).isSome) →
    ∃ out, translateFieldsGo ftrans rec l out0 = .ok out := by
  intro l
  induction l with
  | nil => intro out0 _; exact ⟨out0, rfl⟩
  | cons p rest ih =>
    intro out0 h
    obtain ⟨appsAttr, ksAttr⟩ := p
    have hs := h (appsAttr, ksAttr) (List.mem_cons_self _ _)
    cases hv0 : getField rec ksAttr with
    | none => rw [show (appsAttr, ksAttr).2 = ksAttr from rfl, hv0] at hs; simp at hs
    | some v0 =>
      obtain ⟨out, hout⟩ := ih _ (fun q hq => h q (List.mem_cons_of_mem _ hq))
      refine ⟨out, ?_⟩
      simp only [translateFieldsGo, hv0]
      exact hout

theorem checkRequired_spec : ∀ (req : List String) (out : Record),
    ((∀ k ∈ req, jTruthyO (getField out k) = true) ∧ checkRequired req out = .ok out)
    ∨ ((∃ k ∈ req, jTruthyO (getField out k) = false)
        ∧ checkRequired req out = .error (.invalidRecord .missingRequiredValue)) := by
  intro req
  induction req with
  | nil =>
    intro out
    left
    exact ⟨fun k hk => absurd hk (List.not_mem_nil k), rfl⟩
  | cons k rest ih =>
    intro out
    cases hg : getField out k with
    | none =>
      right
      refine ⟨⟨k, List.mem_cons_self _ _, by simp [jTruthyO, hg]⟩, ?_⟩
      simp [checkRequired, hg]
    | some v =>
      by_cases hv : jTruthy v = true
      · rcases ih out with ⟨hall, hck⟩ | ⟨hex, hck⟩
        · left
          refine ⟨?_, ?_⟩
          · intro k2 hk2
            rcases List.mem_cons.mp hk2 with h1 | h2
            · rw [h1]; simp [jTruthyO, hg, hv]
            · exact hall k2 h2
          · simp [checkRequired, hg, hv, hck]
        · right
          obtain ⟨k2, hk2, hk2f⟩ := hex
          exact ⟨⟨k2, List.mem_cons_of_mem _ hk2, hk2f⟩, by simp [checkRequired, hg, hv, hck]⟩
      · right
        have hvf : jTruthy v = false := by
          revert hv; cases jTruthy v <;> simp
        refine ⟨⟨k, List.mem_cons_self _ _, by simp [jTruthyO, hg, hvf]⟩, ?_⟩
        simp [checkRequired, hg, hvf]

/-- C6 as amended: `translate` raises an `InvalidRecord` only of
`MissingRequiredValue` kind, exactly when (with the field-map stage
succeeding) some post-translation required field is absent or falsy; a
mapped source field absent from the local record instead raises a plain
`KeyError`, which is not an `InvalidRecord`; otherwise the translated record
is returned. -/
theorem C6_translate_errors (ftrans : String → Option (JVal → JVal))
    (fieldMap : List (String × String)) (required : List String) (rec : Record) :
    (∃ a, (∃ p ∈ fieldMap, p.2 = a) ∧ getField rec a = none
      ∧ translate ftrans fieldMap required rec = .error (.keyError a))
    ∨ (∃ out, translateFields ftrans fieldMap rec = .ok out
        ∧ (((∀ k ∈ required, jTruthyO (getField out k) = true)
              ∧ translate ftrans fieldMap required rec = .ok out)
          ∨ ((∃ k ∈ required, jTruthyO (getField out k) = false)
              ∧ translate ftrans fieldMap required rec =
                  .error (.invalidRecord .missingRequiredValue)))) := by
  cases htf : translateFields ftrans fieldMap rec with
  | error e =>
    obtain ⟨p, hp, he, hgf⟩ := translateFieldsGo_err ftrans rec fieldMap [] e htf
    left
    refine ⟨p.2, ⟨p, hp, rfl⟩, hgf, ?_⟩
    rw [translate, htf, he]
  | ok out =>
    right
    refine ⟨out, rfl, ?_⟩
    rcases checkRequired_spec required out with ⟨hall, hck⟩ | ⟨hex, hck⟩
    · left
      exact ⟨hall, by rw [translate, htf]; exact hck⟩
    · right
      exact ⟨hex, by rw [translate, htf]; exact hck⟩

/-- Counterexample to C6 as stated: a mapped source field absent from the
local record makes `translate` raise a plain `KeyError`, not an
`InvalidRecord` of any kind (so the loader's handlers would not catch
it). -/
theorem C6_translate_counterexample :
    translate (fun _ => none) c6FieldMap [] [] = .error (.keyError "A")
    ∧ isInvalidErr (translate (fun _ => none) c6FieldMap [] []) = false := by
  constructor <;> rfl

/-- C8: the get-or-create resolver returns null (no error, no request) for a
falsy key, the cached record's url for a known key, and for a non-empty
unknown key posts a body holding only the key field, stores the created
record and returns its url. -/
theorem C8_get_or_create (post : Record → HResp) (keyName : String) (key : JVal)
    (store : Store JVal) :
    (jTruthy key = false → gocGetUrlForKey post keyName key store = (store, .ok none, []))
    ∧ (∀ rec u, jTruthy key = true → alookup store key = some rec →
        getField rec "url" = some u →
        gocGetUrlForKey post keyName key store = (store, .ok (some u), []))
    ∧ (∀ u, jTruthy key = true → alookup store key = none →
        (post [(keyName, key)]).status < 400 →
        getField (post [(keyName, key)]).body "url" = some u →
        gocGetUrlForKey post keyName key store =
          (upsert store key (post [(keyName, key)]).body, .ok (some u), [[(keyName, key)]])) := by
  refine ⟨?_, ?_, ?_⟩
  · intro hf
    simp [gocGetUrlForKey, hf]
  · intro rec u ht hl hu
    simp [gocGetUrlForKey, ht, hl, hu]
  · intro u ht hl hs hu
    have hns : ¬ (400 ≤ (post [(keyName, key)]).status ∧ (post [(keyName, key)]).status < 600) := by
      omega
    simp [gocGetUrlForKey, ht, hl, hns, hu]

/-- Witness for C8: creating a missing academic year posts only the key
field, stores the result and returns its url. -/
theorem C8_get_or_create_witness :
    gocGetUrlForKey c8Post "year" (JVal.str "2024") [] =
      ([(JVal.str "2024", [("year", JVal.str "2024"), ("url", JVal.str "u9")])],
        .ok (some (JVal.str "u9")), [[("year", JVal.str "2024")]]) :=
  (C8_get_or_create c8Post "year" (JVal.str "2024") []).2.2 (JVal.str "u9")
    rfl rfl (by decide) rfl

theorem getUrlMapGo_all_conn (oracle : Nat → Disc) :
    ∀ (n i : Nat), (∀ j, i ≤ j → j < i + n → oracle j = .connError) →
    getUrlMapGo oracle n i = (.ok none, connEvents n) := by
  intro n
  induction n with
  | zero => intro i _; rfl
  | succ m ih =>
    intro i h
    have h0 : oracle i = .connError := h i le_rfl (by omega)
    have hr := ih (i + 1) (fun j hj1 hj2 => h j (by omega) (by omega))
    simp [getUrlMapGo, h0, hr, connEvents]

theorem getUrlMapGo_first_resp (oracle : Nat → Disc) (status : Nat) (body : Record) :
    ∀ (t n i : Nat), t < n → (∀ j, i ≤ j → j < i + t → oracle j = .connError) →
    oracle (i + t) = .resp status body →
    getUrlMapGo oracle n i =
      ((if 400 ≤ status ∧ status < 600 then .error (.httpError status) else .ok (some body)),
        connEvents t ++ [FetchEvent.attempt]) := by
  intro t
  induction t with
  | zero =>
    intro n i hn h hresp
    cases n with
    | zero => omega
    | succ m =>
      rw [Nat.add_zero] at hresp
      by_cases hs : 400 ≤ status ∧ status < 600
      · simp [getUrlMapGo, hresp, hs, connEvents]
      · simp [getUrlMapGo, hresp, hs, connEvents]
  | succ tt ih =>
    intro n i hn h hresp
    cases n with
    | zero => omega
    | succ m =>
      have h0 : oracle i = .connError := h i le_rfl (by omega)
      have hr := ih m (i + 1) (by omega) (fun j hj1 hj2 => h j (by omega) (by omega))
        (by rw [show i + 1 + tt = i + (tt + 1) from by omega]; exact hresp)
      simp [getUrlMapGo, h0, hr, connEvents]

/-- C9 as amended: the discovery fetch makes up to ten attempts, retrying
(with the connection-error log line and a five-second sleep) only on
connection failure; the first real response ends the loop at once — fatally
for a 400..599 status, successfully otherwise; and when all ten attempts
fail to connect the fetch itself returns null without raising, the failure
only becoming fatal as a `TypeError` when the url map is first used. -/
theorem C9_discovery_retry (oracle : Nat → Disc) (i status : Nat) (body : Record) :
    ((∀ j, j < 10 → oracle j = .connError) →
      getUrlMap oracle = (.ok none, connEvents 10)
      ∧ ∀ urlKey, urlFromMap oracle urlKey = .error .typeError)
    ∧ (i < 10 → (∀ j, j < i → oracle j = .connError) → oracle i = .resp status body →
        ((400 ≤ status ∧ status < 600 →
          getUrlMap oracle = (.error (.httpError status), connEvents i ++ [FetchEvent.attempt]))
        ∧ (¬ (400 ≤ status ∧ status < 600) →
          getUrlMap oracle = (.ok (some body), connEvents i ++ [FetchEvent.attempt])))) := by
  constructor
  · intro h
    have heq : getUrlMap oracle = (.ok none, connEvents 10) :=
      getUrlMapGo_all_conn oracle 10 0 (fun j _ hj2 => h j (by omega))
    refine ⟨heq, ?_⟩
    intro urlKey
    simp [urlFromMap, heq]
  · intro hi hconn hresp
    have heq := getUrlMapGo_first_resp oracle status body i 10 0 hi
      (fun j _ hj2 => hconn j (by omega)) (by simpa using hresp)
    constructor
    · intro hs
      rw [show getUrlMap oracle = _ from heq, if_pos hs]
    · intro hs
      rw [show getUrlMap oracle = _ from heq, if_neg hs]

/-- Counterexample to C9 as stated: after ten connection failures the
discovery fetch does not become fatal — it returns Python `None` with no
exception (having made exactly ten attempts with ten sleeps); the crash only
happens later, as a `TypeError`, when the url map is subscripted. -/
theorem C9_discovery_counterexample :
    (getUrlMap c9AllConn).1 = .ok none
    ∧ urlFromMap c9AllConn "students" = .error .typeError
    ∧ (getUrlMap c9AllConn).2 = connEvents 10 :=
  ⟨rfl, rfl, rfl⟩

/-- Witness for the amended C9: two connection failures followed by a 200
response give the document after exactly two retries and one final
attempt. -/
theorem C9_discovery_retry_witness :
    getUrlMap c9Oracle = (.ok (some [("students", JVal.str "su")]),
      connEvents 2 ++ [FetchEvent.attempt]) := by
  have h := (C9_discovery_retry c9Oracle 2 200 [("students", JVal.str "su")]).2
    (by omega)
    (by intro j hj; simp [c9Oracle, hj])
    (by simp [c9Oracle])
  exact h.2 (by omega)

theorem smLoadKs_appsLoaded {K : Type} [DecidableEq K] (env : SyncEnv K) (st : SyncState K) :
    (smLoadKs env st).appsLoaded = st.appsLoaded := by
  unfold smLoadKs
  split <;> rfl

theorem smCreate_noop {K : Type} [DecidableEq K] (env : SyncEnv K) (st : SyncState K)
    (h : st.createRan = true) : smCreate env st = st := by
  simp [smCreate, h]

theorem smCreate_createRan_true {K : Type} [DecidableEq K] (env : SyncEnv K) (st : SyncState K)
    (h1 : ¬ (st.fatal.isSome || st.createRan) = true) : (smCreate env st).createRan = true := by
  simp only [smCreate]
  rw [if_neg h1]
  split <;> rfl

theorem smCreate_idem {K : Type} [DecidableEq K] (env : SyncEnv K) (st : SyncState K) :
    smCreate env (smCreate env st) = smCreate env st := by
  by_cases h1 : (st.fatal.isSome || st.createRan) = true
  · have he : smCreate env st = st := by simp [smCreate, h1]
    rw [he]
    exact he
  · exact smCreate_noop env (smCreate env st) (smCreate_createRan_true env st h1)

/-- C4: invoking `get_url_for_key` on a `SyncManager` forces the entity's
full create phase before the lookup — idempotently, the phase runs at most
once — and because successful creates are inserted into the in-memory
current store, looking up a key created earlier in the same pass returns the
newly created record's identity url rather than null; a falsy key returns
null. -/
theorem C4_lazy_create_resolution {K : Type} [DecidableEq K] (env : SyncEnv K) (key : K)
    (d : Record) (u : JVal)
    (hkf : env.keyFalsy key = false)
    (hfatal : (smLoadKs env (smLoadApps env initState)).fatal = none)
    (hmem : (key, d) ∈ toCreatePairs (smLoadKs env (smLoadApps env initState)).ks
        (smLoadKs env (smLoadApps env initState)).apps)
    (hnd : (keysOf (smLoadKs env (smLoadApps env initState)).ks).Nodup)
    (hall : ∀ kv ∈ toCreatePairs (smLoadKs env (smLoadApps env initState)).ks
        (smLoadKs env (smLoadApps env initState)).apps,
        respHandled kv.2 (env.post kv.1 kv.2) = true)
    (hst : (env.post key d).status < 400)
    (hurl : getField (env.post key d).body "url" = some u) :
    smCreate env (smCreate env initState) = smCreate env initState
    ∧ (smGetUrlForKey env key initState).2 = .ok (some u)
    ∧ (∀ k2, env.keyFalsy k2 = true → (smGetUrlForKey env k2 initState).2 = .ok none) := by
  have hallok : ∀ p ∈ toCreatePairs (smLoadKs env (smLoadApps env initState)).ks
      (smLoadKs env (smLoadApps env initState)).apps,
      (createOne env.post p.1 p.2).2.2 = none :=
    fun p hp => createOne_handled env.post p.1 p.2 (hall p hp)
  have hcp : (createPhase env.post (smLoadKs env (smLoadApps env initState)).ks
      (smLoadKs env (smLoadApps env initState)).apps).2.2 = none :=
    (createGo_none_iff env.post _ _).mpr hallok
  have hcond : ¬ (((initState : SyncState K).fatal.isSome
      || (initState : SyncState K).createRan) = true) := by
    simp [initState]
  have hcond2 : ¬ ((smLoadKs env (smLoadApps env initState)).fatal.isSome = true) := by
    rw [hfatal]; simp
  have hrun : smCreate env initState =
      { smLoadKs env (smLoadApps env initState) with
        apps := (createPhase env.post (smLoadKs env (smLoadApps env initState)).ks
          (smLoadKs env (smLoadApps env initState)).apps).1,
        logs := (smLoadKs env (smLoadApps env initState)).logs ++
          (createPhase env.post (smLoadKs env (smLoadApps env initState)).ks
            (smLoadKs env (smLoadApps env initState)).apps).2.1,
        createRan := true,
        fatal := (createPhase env.post (smLoadKs env (smLoadApps env initState)).ks
          (smLoadKs env (smLoadApps env initState)).apps).2.2 } := by
    simp only [smCreate]
    rw [if_neg hcond, if_neg hcond2]
  have f1 : (smCreate env initState).fatal = none := by rw [hrun]; exact hcp
  have f2 : (smCreate env initState).appsLoaded = true := by
    rw [hrun]
    show (smLoadKs env (smLoadApps env initState)).appsLoaded = true
    rw [smLoadKs_appsLoaded]
    simp [smLoadApps, initState]
  have f3 : alookup (smCreate env initState).apps key = some (env.post key d).body := by
    rw [hrun]
    show alookup (createPhase env.post (smLoadKs env (smLoadApps env initState)).ks
      (smLoadKs env (smLoadApps env initState)).apps).1 key = _
    have hl2 : alookup (createPhase env.post (smLoadKs env (smLoadApps env initState)).ks
        (smLoadKs env (smLoadApps env initState)).apps).1 key =
        (createOne env.post key d).1 :=
      createPhase_lookup env.post (smLoadKs env (smLoadApps env initState)).ks
        (smLoadKs env (smLoadApps env initState)).apps hnd (key, d) hmem hallok
    rw [hl2, createOne_success env.post key d hst u hurl]
  have f4 : smLoadApps env (smCreate env initState) = smCreate env initState := by
    have hc : ((smCreate env initState).fatal.isSome
        || (smCreate env initState).appsLoaded) = true := by
      rw [f2]; simp
    simp [smLoadApps, hc]
  refine ⟨smCreate_idem env initState, ?_, ?_⟩
  · simp only [smGetUrlForKey, f1, hkf, f4, f3, hurl]
    rfl
  · intro k2 hk2
    simp only [smGetUrlForKey, f1, hk2]
    rfl

/-- Witness for C4: in a one-student environment with an empty remote side,
resolving the student key runs the create phase and returns the freshly
created record's url. -/
theorem C4_lazy_create_resolution_witness :
    (smGetUrlForKey c4Env (JVal.str "S1") initState).2 = .ok (some (JVal.str "u4")) := by
  have h := C4_lazy_create_resolution c4Env (JVal.str "S1") [("student_id", JVal.str "S1")]
    (JVal.str "u4") rfl rfl (by decide) (by decide) (by decide) (by decide) rfl
  exact h.2.1

end KeystoneSync
